import Mathlib

/-!
Verification of shideqin/storage: multipart transfer engine and prefix walkers.

A shallow embedding of the part arithmetic, the completion manifest, the skip
decision, the paginated prefix walk, the option parsing, the admission loop
with its part and item workers, the response handling of the object
operations, the sweep of `DeleteAllPart`, the suffix filters, and the two
request signers of the `aws/s3v2` and `aws/s3v4` clients (`multi.go`,
`object.go`, `sync.go`, `bucket.go`, `init.go`, `base.go`,
`storageutil/base.go`), together with the workers of the `ceph/s3` and
`aliyun/oss` dialects, with the properties the specification states about
them.

Go `int` values are embedded as `Int`; `/` and `%` on Go integers truncate
toward zero and are embedded as `Int.tdiv` and `Int.tmod`.  Sizes handled by
the client stay far below `2^63`, so no wrap-around is modelled.
-/

namespace Storage

/-! ## Client constants (`aws/s3v2/init.go`, `New`) -/

/-- Field `partMaxSize` set by `New`: `100 * 1024 * 1024`. -/
def partMaxSize : Int := 100 * 1024 * 1024

/-- Field `partMinSize` set by `New`: `1 * 1024 * 1024`. -/
def partMinSize : Int := 1 * 1024 * 1024

/-- Field `maxRetryNum` set by `New`. -/
def maxRetryNum : Nat := 5

/-- Field `threadMaxNum` set by `New`. -/
def threadMaxNum : Int := 500

/-- Field `threadMinNum` set by `New`. -/
def threadMinNum : Int := 1

/-! ## Part arithmetic (`multi.go`, `sync.go`, `object.go`) -/

/-- The part count `var total = (size + partSize - 1) / partSize` of
`UploadLargeFile`, `CopyLargeFile`, `SyncLargeFile` and `Get`. -/
def totalParts (size partSize : Int) : Int :=
  Int.tdiv (size + partSize - 1) partSize

/-- The byte range `(tmpStart, tmpEnd)` computed for part `partNum` by the
ranged loops of `CopyLargeFile`, `SyncLargeFile` and `Get`:
`tmpStart := partNum * partSize`, `tmpEnd := (partNum+1)*partSize - 1`, and
`if tmpEnd > objectSize { tmpEnd = tmpStart + objectSize%partSize - 1 }`. -/
def partRange (objectSize partSize partNum : Int) : Int × Int :=
  let tmpStart := partNum * partSize
  let tmpEnd := (partNum + 1) * partSize - 1
  let tmpEnd :=
    if tmpEnd > objectSize then tmpStart + Int.tmod objectSize partSize - 1 else tmpEnd
  (tmpStart, tmpEnd)

/-- The section `(offset, num)` read for part `partNum` by `UploadLargeFile`:
`offset := partNum * partSize`, `num := partSize`, and
`if fileSize-offset < num { num = fileSize - offset }`. -/
def uploadSection (fileSize partSize partNum : Int) : Int × Int :=
  let offset := partNum * partSize
  let num := partSize
  let num := if fileSize - offset < num then fileSize - offset else num
  (offset, num)

/-- The sections of all parts `partNum = 0 .. total-1`, in the order in which
the loop `for partNum := 0; partNum < total; partNum++` of `UploadLargeFile`
admits them. -/
def uploadSections (fileSize partSize : Int) : List (Int × Int) :=
  (List.range (totalParts fileSize partSize).toNat).map
    (fun partNum : Nat => uploadSection fileSize partSize (partNum : Int))

/-! ## Completion manifest (`multi.go`, `sync.go`) -/

/-- The entry appended for slice index `partNum` holding `etag`:
`fmt.Sprintf("<Part><PartNumber>%d</PartNumber><ETag>%s</ETag></Part>", partNum+1, Etag)`. -/
def partEntry (partNum : Nat) (etag : String) : String :=
  "<Part><PartNumber>" ++ toString (partNum + 1) ++ "</PartNumber><ETag>" ++ etag ++ "</ETag></Part>"

/-- The body of `for partNum, Etag := range uploadPartList { completeUploadInfo += ... }`,
started at slice index `partNum`. -/
def appendParts : Nat → List String → String → String
  | _, [], info => info
  | partNum, etag :: rest, info => appendParts (partNum + 1) rest (info ++ partEntry partNum etag)

/-- The manifest `completeUploadInfo` (`completeCopyInfo`, `completeSyncInfo`) built from the
slice of recorded ETags after the workers have joined. -/
def completeUploadInfo (uploadPartList : List String) : String :=
  appendParts 0 uploadPartList "<CompleteMultipartUpload>" ++ "</CompleteMultipartUpload>"

/-- One worker's assignment `uploadPartList[partNum] = etag`. -/
def recordEtag (uploadPartList : List String) (w : Nat × String) : List String :=
  uploadPartList.set w.1 w.2

/-- The slice `make([]string, total)` after the assignments `writes` have been performed in
the order given. -/
def recordAll (total : Nat) (writes : List (Nat × String)) : List String :=
  writes.foldl recordEtag (List.replicate total "")

/-! ## Skip decision of the prefix operations (`object.go`, `sync.go`) -/

/-- Go option map `map[string]string`; a missing key reads as `""`. -/
abbrev Options := List (String × String)

/-- The lookup `options[key]`. -/
def opt (options : Options) (key : String) : String :=
  (options.lookup key).getD ""

/-- The part of a `Head` response map the skip decision reads.  `contentLength` is the value
`strconv.ParseInt` yields for the `Content-Length` entry and `lastModified` the Unix seconds of
the time `time.Parse(c.dateTimeGMT, ...)` yields for the `Last-Modified` entry; `none` stands
for an absent entry.  A failed `Head` returns the nil map, in which both are absent. -/
structure HeadResult where
  contentLength : Option Int
  lastModified : Option Int
deriving DecidableEq, Repr

/-- The nil map returned by a failed `Head`. -/
def nilHead : HeadResult := ⟨none, none⟩

/-- The value `time.Time{}.Unix()` of Go's zero time (1 January of year 1, UTC). -/
def zeroTimeUnix : Int := -62135596800

/-- The size read off a head: `var size int64; if l, ok := head["Content-Length"]; ok { size, _ = strconv.ParseInt(...) }`. -/
def headSize (head : HeadResult) : Int :=
  match head.contentLength with
  | some l => l
  | none => 0

/-- The seconds of the time read off a head:
`var t time.Time; if m, ok := head["Last-Modified"]; ok { t, _ = time.Parse(...) }; t.Unix()`. -/
def headTime (head : HeadResult) : Int :=
  match head.lastModified with
  | some m => m
  | none => zeroTimeUnix

/-- The part of an `os.FileInfo` the skip decision reads: `Size()` and `ModTime().Unix()`. -/
structure FileStat where
  size : Int
  modTimeUnix : Int
deriving DecidableEq, Repr

/-- What a worker of a prefix operation does with its item. -/
inductive ItemAction where
  | skipped
  | transfer
  | statError
deriving DecidableEq, Repr

/-- The flag `isSkipped` of a `SyncAllObject` worker (`sync.go`), from the source head and the
destination head `objectHead`. -/
def syncIsSkipped (options : Options) (sourceHead objectHead : HeadResult) : Bool :=
  let sourceHeadSize := headSize sourceHead
  if opt options "replace" != "true" then
    let objectHeadSize := headSize objectHead
    if sourceHeadSize == objectHeadSize then
      let objectTime := headTime objectHead
      let sourceTime := headTime sourceHead
      if objectTime >= sourceTime then true else false
    else false
  else false

/-- A `SyncAllObject` worker: `if !isSkipped { ... Cat, Put ... }`. -/
def syncAllObjectItem (options : Options) (sourceHead objectHead : HeadResult) : ItemAction :=
  if syncIsSkipped options sourceHead objectHead then .skipped else .transfer

/-- The flag `isSkipped` of an `UploadFromDir` worker (`object.go`), from the stat of the local
file and the destination head `objectHead`. -/
def uploadIsSkipped (options : Options) (localFileStat : FileStat) (objectHead : HeadResult) : Bool :=
  let localFileSize := localFileStat.size
  let localFileTime := localFileStat.modTimeUnix
  if opt options "replace" != "true" then
    let objectHeadSize := headSize objectHead
    if localFileSize == objectHeadSize then
      let objectTime := headTime objectHead
      if objectTime >= localFileTime then true else false
    else false
  else false

/-- An `UploadFromDir` worker; `none` is a failed `os.Stat` of the local file, which sets
`fileErr` and returns. -/
def uploadFromDirItem (options : Options) (localFileStat : Option FileStat)
    (objectHead : HeadResult) : ItemAction :=
  match localFileStat with
  | none => .statError
  | some st => if uploadIsSkipped options st objectHead then .skipped else .transfer

/-- Go `strings.Split(s, sep)` for a one-character separator, on character lists. -/
def splitChars (sep : Char) : List Char → List (List Char)
  | [] => [[]]
  | c :: cs =>
    if c == sep then [] :: splitChars sep cs
    else
      match splitChars sep cs with
      | [] => [[c]]
      | h :: t => (c :: h) :: t

/-- Go `strings.Split(s, ",")`. -/
def splitComma (s : String) : List String :=
  (splitChars ',' s.data).map String.mk

/-- Go `strings.HasSuffix(s, suffix)`. -/
def hasSuffix (s suffix : String) : Bool :=
  suffix.data.isSuffixOf s.data

/-- The lower-casing of ASCII letters; it agrees with Go `strings.ToLower` on ASCII strings. -/
def asciiToLower (s : String) : String :=
  String.mk (s.data.map Char.toLower)

/-- The loop `for _, tmpSuffix := range suffixList` of `CopyAllObject` and `MoveAllObject`:
true when some non-empty entry is a suffix of the lower-cased key. -/
def suffixLoop (lowerKey : String) : List String → Bool
  | [] => false
  | tmpSuffix :: rest =>
    if tmpSuffix != "" then
      if hasSuffix lowerKey tmpSuffix then true else suffixLoop lowerKey rest
    else suffixLoop lowerKey rest

/-- The suffix filter at the head of a `CopyAllObject` / `MoveAllObject` worker: the value of
`isSkipped` after `if options["suffix"] != "" { ... }`.  `toLower` is `strings.ToLower`. -/
def suffixFilter (toLower : String → String) (options : Options) (key : String) : Bool :=
  if opt options "suffix" != "" then
    suffixLoop (toLower key) (splitComma (opt options "suffix"))
  else false

/-- The flag `isSkipped` of a `CopyAllObject` worker and, with the same text, of a
`MoveAllObject` worker (`object.go`). -/
def copyIsSkipped (toLower : String → String) (options : Options) (key : String)
    (sourceHead objectHead : HeadResult) : Bool :=
  let isSkipped := suffixFilter toLower options key
  let sourceHeadSize := headSize sourceHead
  if opt options "replace" != "true" then
    let objectHeadSize := headSize objectHead
    if sourceHeadSize == objectHeadSize then
      let objectTime := headTime objectHead
      let sourceTime := headTime sourceHead
      if objectTime >= sourceTime then true else isSkipped
    else isSkipped
  else isSkipped

/-- The flag `isSkipped` of a `DownloadAllObject` worker (`object.go`): `objectHead` is the head
of the remote object, `fileStat` the `os.Stat` of the local file (`none` when it fails). -/
def downloadIsSkipped (options : Options) (objectHead : HeadResult)
    (fileStat : Option FileStat) : Bool :=
  if opt options "replace" != "true" then
    let objectHeadSize := headSize objectHead
    match fileStat with
    | some st =>
      if objectHeadSize == st.size then
        let objectTime := headTime objectHead
        if objectTime >= st.modTimeUnix then true else false
      else false
    | none => false
  else false

/-- A `DownloadAllObject` worker: `if !isSkipped { ... c.Get ... }`. -/
def downloadAllObjectItem (options : Options) (objectHead : HeadResult)
    (fileStat : Option FileStat) : ItemAction :=
  if downloadIsSkipped options objectHead fileStat then .skipped else .transfer

/-! ## Paginated prefix walk (`object.go`, `sync.go`) -/

/-- The field of `storagebase.ListObjectContents` the walkers read for the cursor. -/
structure ListObjectContents where
  key : String
deriving DecidableEq, Repr

/-- The fields of `storagebase.ListObjectResult` the walkers read: the truncation flag, kept
as the string the listing carries, and the entries of the page. -/
structure ListObjectResult where
  isTruncated : String
  contents : List ListObjectContents
deriving DecidableEq, Repr

/-- How a walk ends: it returns (with `fileErr`, `none` being success), the indexing
`Contents[sourceObjectNum-1]` is out of range, or the listing has no further page to serve. -/
inductive WalkEnd where
  | returned (fileErr : Option String)
  | indexOutOfRange
  | noPage
deriving DecidableEq, Repr

/-- The `LIST:` loop of `CopyAllObject`, `MoveAllObject`, `SyncAllObject` and
`DownloadAllObject`.  The listing serves the pages in order, one per `ListObject` request;
`batch page` is the value of `fileErr` once the workers of the page have joined.  The result
is the list of markers of the requests issued, in order, and how the walk ended:
`if fileErr == nil && sourceList.IsTruncated == "true" { marker = sourceList.Contents[sourceObjectNum-1].Key; goto LIST }`. -/
def walkPages (batch : ListObjectResult → Option String) :
    List ListObjectResult → String → List String × WalkEnd
  | [], marker => ([marker], .noPage)
  | sourceList :: rest, marker =>
    let fileErr := batch sourceList
    if fileErr.isNone && sourceList.isTruncated == "true" then
      match sourceList.contents.getLast? with
      | none => ([marker], .indexOutOfRange)
      | some last =>
        let r := walkPages batch rest last.key
        (marker :: r.1, r.2)
    else ([marker], .returned fileErr)

/-- A prefix walk from its start: `marker := ""`. -/
def walkPrefix (batch : ListObjectResult → Option String) (pages : List ListObjectResult) :
    List String × WalkEnd :=
  walkPages batch pages ""

/-- The key of the last entry of a page (`""` for a page without entries). -/
def lastKey (p : ListObjectResult) : String :=
  match p.contents.getLast? with
  | some last => last.key
  | none => ""

/-- The cursor `DeleteAllObject` computes for a page from the marker it came with:
`for _, v := range list.Contents { marker = v.Key }`. -/
def deleteMarker (marker : String) (contents : List ListObjectContents) : String :=
  contents.foldl (fun _ v => v.key) marker

/-! ## Part workers and the admission loop of `UploadLargeFile` (`multi.go`) -/

/-- What one call of `c.UploadPart` gives: an error, or a response map, of which the worker
reads the `Etag` entry (`none` when the response has no such entry). -/
inductive PartResp where
  | err (msg : String)
  | ok (etag : Option String)
deriving DecidableEq, Repr

/-- The variables of one `UploadLargeFile` call that its workers share, the log of the
`UploadPart` requests issued (part number, attempt index) and the number of values sent on
`percentChan`. -/
structure JobVars where
  partErr : Option String
  uploadExit : Bool
  uploadPartList : List String
  requests : List (Nat × Nat)
  progress : Nat
deriving DecidableEq, Repr

/-- The loop `for i := 0; i < c.maxRetryNum; i++` of the worker of part `partNum`, from
attempt `i` with `left` attempts to go.  `none`: the type assertion
`uploadPart["Etag"].(string)` fails on a response without that entry. -/
def retryLoop (uploadPart : Nat → Nat → PartResp) (partNum : Nat) :
    Nat → Nat → JobVars → Option JobVars
  | 0, _, v => some v
  | left + 1, i, v =>
    let v := { v with requests := v.requests ++ [(partNum + 1, i)] }
    match uploadPart (partNum + 1) i with
    | .err upErr => retryLoop uploadPart partNum left (i + 1) { v with partErr := some upErr }
    | .ok none => none
    | .ok (some etag) =>
      some { v with partErr := none, uploadPartList := recordEtag v.uploadPartList (partNum, etag) }

/-- The worker of part `partNum`: the retry loop, the progress notification when `partErr` is
nil after it, and the deferred `if partErr != nil { uploadExit = true }`. -/
def uploadWorker (uploadPart : Nat → Nat → PartResp) (partNum : Nat) (v : JobVars) :
    Option JobVars :=
  match retryLoop uploadPart partNum maxRetryNum 0 v with
  | none => none
  | some v =>
    let v := if v.partErr.isSome then v else { v with progress := v.progress + 1 }
    some (if v.partErr.isSome then { v with uploadExit := true } else v)

/-- A scheduling event of the job: the main goroutine performs one iteration of
`for partNum := 0; partNum < total; partNum++`, or the admitted worker of a part runs. -/
inductive Event where
  | dispatch
  | run (partNum : Nat)
deriving DecidableEq, Repr

/-- The state of an `UploadLargeFile` call between events: the loop counter, whether the loop
was left by `break`, the admitted workers that have not run yet (each holds one slot of
`queueMaxSize`), and the shared variables. -/
structure JobState where
  partNum : Nat
  loopBroken : Bool
  running : List Nat
  vars : JobVars
deriving DecidableEq, Repr

/-- The state after `var uploadPartList = make([]string, total)`. -/
def initJob (total : Nat) : JobState :=
  { partNum := 0, loopBroken := false, running := [],
    vars := { partErr := none, uploadExit := false,
              uploadPartList := List.replicate total "", requests := [], progress := 0 } }

/-- The capacity of `queueMaxSize`: `if total < threadNum { threadNum = total }`. -/
def poolSize (total threadNum : Nat) : Nat :=
  if total < threadNum then total else threadNum

/-- One event; the runs described are those in which an admitted worker, once it runs, runs
to its end without interruption.  `dispatch` needs the loop to be running; it breaks when `uploadExit` is set and
otherwise needs a free slot (`queueMaxSize <- true` blocks on a full pool).  `run p` needs `p`
to be admitted; the worker runs to its end and gives its slot back.  `none`: the event cannot
happen in this state, or the worker aborts. -/
def step (uploadPart : Nat → Nat → PartResp) (total threadNum : Nat) (s : JobState) :
    Event → Option JobState
  | .dispatch =>
    if s.loopBroken || total ≤ s.partNum then none
    else if s.vars.uploadExit then some { s with loopBroken := true }
    else if s.running.length < poolSize total threadNum then
      some { s with partNum := s.partNum + 1, running := s.running ++ [s.partNum] }
    else none
  | .run p =>
    if s.running.contains p then
      match uploadWorker uploadPart p s.vars with
      | none => none
      | some v => some { s with running := s.running.erase p, vars := v }
    else none

/-- The events of a schedule, one after the other. -/
def runEvents (uploadPart : Nat → Nat → PartResp) (total threadNum : Nat) :
    List Event → JobState → Option JobState
  | [], s => some s
  | e :: es, s =>
    match step uploadPart total threadNum s e with
    | none => none
    | some s => runEvents uploadPart total threadNum es s

/-- What `UploadLargeFile` does after `wg.Wait()`: it returns `partErr`, or posts the manifest
through `CompleteUpload`. -/
inductive JobOutcome where
  | failed (partErr : String)
  | completed (completeUploadInfo : String)
deriving DecidableEq, Repr

/-- The outcome in a state where the loop has ended and every admitted worker has run. -/
def finishJob (total : Nat) (s : JobState) : Option JobOutcome :=
  if (s.loopBroken || total ≤ s.partNum) && s.running.isEmpty then
    match s.vars.partErr with
    | some e => some (.failed e)
    | none => some (.completed (completeUploadInfo s.vars.uploadPartList))
  else none

/-- The outcome of `UploadLargeFile` on `total` parts with option `threadNum` under a schedule;
`none` when the schedule is not a complete run. -/
def runJob (uploadPart : Nat → Nat → PartResp) (total threadNum : Nat)
    (schedule : List Event) : Option JobOutcome :=
  match runEvents uploadPart total threadNum schedule (initJob total) with
  | none => none
  | some s => finishJob total s

/-! ### Scenarios -/

/-- The `UploadPart` outcomes of the scenario of three parts in which part 2 fails its first
two attempts and then succeeds. -/
def transientPart2 (partNumber attempt : Nat) : PartResp :=
  if partNumber = 2 ∧ attempt < 2 then .err "timeout"
  else .ok (some ("etag" ++ toString partNumber))

/-- The `UploadPart` outcomes of the scenario of two parts in which every attempt of part 1
fails and part 2 succeeds at once. -/
def part1Fails (partNumber _attempt : Nat) : PartResp :=
  if partNumber = 1 then .err "StatusCode: 500" else .ok (some "etag2")

/-! ## Option parsing (`multi.go`, `object.go`, `sync.go`, `bucket.go`) -/

/-- The value of a decimal digit, `none` for any other character. -/
def digitValue (c : Char) : Option Nat :=
  if 48 ≤ c.toNat ∧ c.toNat ≤ 57 then some (c.toNat - 48) else none

/-- The number written by a run of decimal digits, accumulated from the left. -/
def parseDigits : List Char → Nat → Option Nat
  | [], acc => some acc
  | c :: cs, acc =>
    match digitValue c with
    | some d => parseDigits cs (acc * 10 + d)
    | none => none

/-- The number written by a non-empty run of decimal digits. -/
def parseUnsigned (cs : List Char) : Option Nat :=
  if cs.isEmpty then none else parseDigits cs 0

/-- Go `strconv.Atoi` with a 64-bit `int`: an optional sign and a non-empty run of decimal
digits whose value fits the type.  `none` stands for a non-nil `err` (bad syntax, or a value
out of range). -/
def atoi (s : String) : Option Int :=
  match s.data with
  | [] => none
  | c :: cs =>
    if c = '-' then
      match parseUnsigned cs with
      | some n => if n ≤ 2 ^ 63 then some (-(n : Int)) else none
      | none => none
    else if c = '+' then
      match parseUnsigned cs with
      | some n => if n < 2 ^ 63 then some (n : Int) else none
      | none => none
    else
      match parseUnsigned (c :: cs) with
      | some n => if n < 2 ^ 63 then some (n : Int) else none
      | none => none

/-- The option block shared by all operations, for the option text `value`:
`var x = dflt; if value != "" { n, err := strconv.Atoi(value); if err == nil && n <= hi && n >= lo { x = n } }`. -/
def optionInRange (dflt lo hi : Int) (value : String) : Int :=
  if value != "" then
    match atoi value with
    | some n => if n ≤ hi ∧ n ≥ lo then n else dflt
    | none => dflt
  else dflt

/-- The part size of `UploadLargeFile`, `CopyLargeFile` and `SyncLargeFile`:
`var partSize = c.partMaxSize`, then the option block on `options["part_size"]`. -/
def uploadPartSize (options : Options) : Int :=
  optionInRange partMaxSize partMinSize partMaxSize (opt options "part_size")

/-- The part size of `Get`: `var partSize = c.partMinSize`, then the option block on
`options["part_size"]`. -/
def getPartSize (options : Options) : Int :=
  optionInRange partMinSize partMinSize partMaxSize (opt options "part_size")

/-- The thread number of every operation: `var threadNum = c.threadMaxNum`, then the option
block on `options["thread_num"]`. -/
def optionThreadNum (options : Options) : Int :=
  optionInRange threadMaxNum threadMinNum threadMaxNum (opt options "thread_num")

/-- The capacity of `queueMaxSize` in `UploadLargeFile`, `CopyLargeFile`, `SyncLargeFile`,
`UploadFromDir` and `DeleteAllPart` for `total` tasks:
`if total < threadNum { threadNum = total }; make(chan bool, threadNum)`. -/
def poolCapacity (options : Options) (total : Int) : Int :=
  let threadNum := optionThreadNum options
  if total < threadNum then total else threadNum

/-! ## Workers of the `ceph/s3` and `aliyun/oss` dialects
(`ceph/s3/multi.go`, `ceph/s3/object.go`, `aliyun/oss/bucket.go`) -/

/-- How a worker goroutine of these dialects ends: it runs to its end, or it ends the whole
process through `os.Exit(code)`. -/
inductive WorkerEnd (α : Type) where
  | finished (result : α)
  | processExit (code : Int)
deriving DecidableEq, Repr

/-- Field `maxRetryNum` set by `New` of `ceph/s3` (`common.go`). -/
def cephMaxRetryNum : Nat := 5

/-- One attempt of a `ceph/s3` `UploadLargeFile` worker: whether `fd.ReadAt` returns an error,
and what `c.UploadPart` gives (`none`: an error; `some etag`: the entry `uploadPart["Etag"]`). -/
structure CephUploadAttempt where
  readFails : Bool
  uploadPart : Option String
deriving DecidableEq, Repr

/-- The loop `for i := 0; i < c.maxRetryNum; i++` of a `ceph/s3` `UploadLargeFile` worker; the
result is `isUploadSuccess` and the slice `uploadPartList`. -/
def cephUploadLoop (attempt : Nat → CephUploadAttempt) (partNum : Nat) :
    Nat → Nat → List String → Bool × List String
  | 0, _, uploadPartList => (false, uploadPartList)
  | left + 1, i, uploadPartList =>
    if (attempt i).readFails then cephUploadLoop attempt partNum left (i + 1) uploadPartList
    else
      match (attempt i).uploadPart with
      | none => cephUploadLoop attempt partNum left (i + 1) uploadPartList
      | some etag => (true, uploadPartList.set partNum etag)

/-- A `ceph/s3` `UploadLargeFile` worker:
`if !isUploadSuccess { fmt.Printf(...); os.Exit(0) }`. -/
def cephUploadWorker (maxRetry : Nat) (attempt : Nat → CephUploadAttempt) (partNum : Nat)
    (uploadPartList : List String) : WorkerEnd (List String) :=
  let r := cephUploadLoop attempt partNum maxRetry 0 uploadPartList
  if !r.1 then .processExit 0 else .finished r.2

/-- One attempt of a `ceph/s3` `Get` worker: `c.Cat` returns an error, or a response with a
status code, after which `file.WriteAt` may return an error. -/
inductive CephCatAttempt where
  | catError
  | response (statusCode : String) (writeFails : Bool)
deriving DecidableEq, Repr

/-- The loop `for i := 0; i < c.maxRetryNum; i++` of a `ceph/s3` `Get` worker; the result is
`isWriteSuccess`. -/
def cephGetLoop (attempt : Nat → CephCatAttempt) : Nat → Nat → Bool
  | 0, _ => false
  | left + 1, i =>
    match attempt i with
    | .catError => cephGetLoop attempt left (i + 1)
    | .response statusCode writeFails =>
      if statusCode != "200" && statusCode != "206" then cephGetLoop attempt left (i + 1)
      else if writeFails then cephGetLoop attempt left (i + 1)
      else true

/-- A `ceph/s3` `Get` worker: `if !isWriteSuccess { fmt.Printf(...); os.Exit(0) }`. -/
def cephGetWorker (maxRetry : Nat) (attempt : Nat → CephCatAttempt) : WorkerEnd Unit :=
  if !cephGetLoop attempt maxRetry 0 then .processExit 0 else .finished ()

/-- The loop `for i := 0; i < c.maxRetryNum; i++` of an `aliyun/oss` `DeleteAllPart` worker.
`cancelPart i` is what the `i`-th `c.CancelPart` gives (`none`: an error; `some status`: the
entry `res["StatusCode"]`); the result is `isDeleteSuccess` and the counter `tmpFinish`. -/
def ossDeleteLoop (cancelPart : Nat → Option String) : Nat → Nat → Nat → Bool × Nat
  | 0, _, tmpFinish => (false, tmpFinish)
  | left + 1, i, tmpFinish =>
    match cancelPart i with
    | none => ossDeleteLoop cancelPart left (i + 1) tmpFinish
    | some statusCode => (true, if statusCode == "204" then tmpFinish + 1 else tmpFinish)

/-- An `aliyun/oss` `DeleteAllPart` worker:
`if !isDeleteSuccess { fmt.Printf(...); os.Exit(0) }`.  `maxRetry` is the client's field
`maxRetryNum`. -/
def ossDeleteWorker (maxRetry : Nat) (cancelPart : Nat → Option String) (tmpFinish : Nat) :
    WorkerEnd Nat :=
  let r := ossDeleteLoop cancelPart maxRetry 0 tmpFinish
  if !r.1 then .processExit 0 else .finished r.2

/-! ## The admission loop shared by the operations -/

/-- The state of an admission loop
`for n := 0; n < total; n++ { if exit { break }; wg.Add(1); queueMaxSize <- true; go worker(n) }`
between events: the loop counter, whether the loop was left by `break`, the workers started
and not yet ended, the number of values held in `queueMaxSize`, and the shared variables. -/
structure PoolState (σ : Type) where
  next : Nat
  loopBroken : Bool
  running : List Nat
  held : Nat
  vars : σ

/-- What differs from one operation to the other: the exit flag the loop reads, and the
worker, which gives the shared variables after it and whether it has taken its value back
out of `queueMaxSize` (`none`: the worker aborts). -/
structure PoolOps (σ : Type) where
  exitFlag : σ → Bool
  worker : Nat → σ → Option (σ × Bool)

/-- The state before the first iteration. -/
def poolInit {σ : Type} (vars : σ) : PoolState σ :=
  { next := 0, loopBroken := false, running := [], held := 0, vars := vars }

/-- One event of an admission loop over `total` tasks with a pool of capacity `cap`.
`dispatch` is one iteration of the loop: it breaks on the exit flag and otherwise needs room
in `queueMaxSize`.  `run p` lets the started worker `p` run to its end. -/
def poolStep {σ : Type} (ops : PoolOps σ) (total cap : Nat) (s : PoolState σ) :
    Event → Option (PoolState σ)
  | .dispatch =>
    if s.loopBroken || total ≤ s.next then none
    else if ops.exitFlag s.vars then some { s with loopBroken := true }
    else if s.held < cap then
      some { s with next := s.next + 1, running := s.running ++ [s.next], held := s.held + 1 }
    else none
  | .run p =>
    if s.running.contains p then
      match ops.worker p s.vars with
      | none => none
      | some (v, released) =>
        some { s with running := s.running.erase p,
                      held := if released then s.held - 1 else s.held, vars := v }
    else none

/-- The events of a schedule, one after the other. -/
def poolRun {σ : Type} (ops : PoolOps σ) (total cap : Nat) :
    List Event → PoolState σ → Option (PoolState σ)
  | [], s => some s
  | e :: es, s =>
    match poolStep ops total cap s e with
    | none => none
    | some s => poolRun ops total cap es s

/-- The loop has ended and `wg.Wait()` returns: every started worker has ended. -/
def poolJoined {σ : Type} (total : Nat) (s : PoolState σ) : Bool :=
  (s.loopBroken || total ≤ s.next) && s.running.isEmpty

/-! ## Part worker of `CopyLargeFile` (`multi.go`) -/

/-- The loop `for i := 0; i < c.maxRetryNum; i++` of the `CopyLargeFile` worker of part
`partNum`.  The shared variables are those of `JobVars`, which `CopyLargeFile` names
`partErr`, `copyExit` and `copyPartList`; `copyCancel partNum i` is the value of the flag
`copyCancel` read before attempt `i`, `copyPart` what `c.CopyPart` gives. -/
def copyRetryLoop (copyPart : Nat → Nat → Except String String)
    (copyCancel : Nat → Nat → Bool) (partNum : Nat) : Nat → Nat → JobVars → JobVars
  | 0, _, v => v
  | left + 1, i, v =>
    if copyCancel partNum i then { v with partErr := some "canceled" }
    else
      let v := { v with requests := v.requests ++ [(partNum + 1, i)] }
      match copyPart (partNum + 1) i with
      | .error copyErr =>
        copyRetryLoop copyPart copyCancel partNum left (i + 1) { v with partErr := some copyErr }
      | .ok etag =>
        { v with partErr := none, uploadPartList := recordEtag v.uploadPartList (partNum, etag) }

/-- The `CopyLargeFile` worker of part `partNum`: the retry loop; `if partErr != nil { return }`;
the progress notification; `<-queueMaxSize`; and the deferred
`if partErr != nil { copyExit = true }`.  The second component tells whether the worker has
taken its value back out of `queueMaxSize`. -/
def copyWorker (copyPart : Nat → Nat → Except String String)
    (copyCancel : Nat → Nat → Bool) (partNum : Nat) (v : JobVars) : JobVars × Bool :=
  let v := copyRetryLoop copyPart copyCancel partNum maxRetryNum 0 v
  if v.partErr.isSome then ({ v with uploadExit := true }, false)
  else ({ v with progress := v.progress + 1 }, true)

/-- The admission loop of `CopyLargeFile`. -/
def copyOps (copyPart : Nat → Nat → Except String String)
    (copyCancel : Nat → Nat → Bool) : PoolOps JobVars :=
  { exitFlag := fun v => v.uploadExit,
    worker := fun partNum v => some (copyWorker copyPart copyCancel partNum v) }

/-! ## Workers and result of `UploadFromDir` (`object.go`) -/

/-- What the worker of one file meets: the branch it takes (`uploadFromDirItem`), the error of
`os.Open` / `fd.Stat` in the transfer branch, the error of the `i`-th `c.Put` (`none` when it
succeeds), and the size of the local file. -/
structure DirItem where
  action : ItemAction
  openErr : Option String
  put : Nat → Option String
  size : Nat

/-- The variables shared by the workers of one `UploadFromDir` call, and the number of
values sent on `percentChan`. -/
structure DirVars where
  fileErr : Option String
  fileExit : Bool
  tmpSize : Nat
  tmpSkip : Nat
  tmpFinish : Nat
  progress : Nat
deriving DecidableEq, Repr

/-- The loop `for i := 0; i < c.maxRetryNum; i++ { _, fileErr = c.Put(...); if fileErr != nil { continue }; break }`. -/
def putLoop (put : Nat → Option String) : Nat → Nat → DirVars → DirVars
  | 0, _, v => v
  | left + 1, i, v =>
    match put i with
    | some e => putLoop put left (i + 1) { v with fileErr := some e }
    | none => { v with fileErr := none }

/-- The deferred function of the worker: `if fileErr != nil { fileExit = true }`. -/
def dirDeferred (v : DirVars) : DirVars :=
  if v.fileErr.isSome then { v with fileExit := true } else v

/-- The worker of one file of `UploadFromDir`. -/
def dirWorker (item : DirItem) (v : DirVars) : DirVars :=
  match item.action with
  | .statError => dirDeferred { v with fileErr := some "Stat localFile" }
  | .skipped => dirDeferred { v with tmpSkip := v.tmpSkip + 1, progress := v.progress + 1 }
  | .transfer =>
    match item.openErr with
    | some e => dirDeferred { v with fileErr := some e }
    | none =>
      let v := putLoop item.put maxRetryNum 0 v
      if v.fileErr.isSome then dirDeferred v
      else
        dirDeferred { v with tmpSize := v.tmpSize + item.size, tmpFinish := v.tmpFinish + 1,
                             progress := v.progress + 1 }

/-- The admission loop of `UploadFromDir` over the files `items`; the deferred function of
the worker always ends with `<-queueMaxSize`. -/
def dirOps (items : List DirItem) : PoolOps DirVars :=
  { exitFlag := fun v => v.fileExit,
    worker := fun fileNum v =>
      match items[fileNum]? with
      | some item => some (dirWorker item v, true)
      | none => none }

/-- The shared variables at the start of `UploadFromDir`. -/
def initDirVars : DirVars :=
  { fileErr := none, fileExit := false, tmpSize := 0, tmpSkip := 0, tmpFinish := 0, progress := 0 }

/-- What `UploadFromDir` returns: `fileErr`, or the map with `Total`, `Skip`, `Finish` and
`Size`. -/
inductive DirOutcome where
  | failed (fileErr : String)
  | stats (total skip finish size : Nat)
deriving DecidableEq, Repr

/-- The result of `UploadFromDir` on the walked files `items` with thread number `threadNum`
under a schedule, with the number of values it sent on `percentChan`; `none` when the
schedule is not a complete run. -/
def runUploadFromDir (items : List DirItem) (threadNum : Nat) (schedule : List Event) :
    Option (DirOutcome × Nat) :=
  match poolRun (dirOps items) items.length (poolSize items.length threadNum) schedule
      (poolInit initDirVars) with
  | none => none
  | some s =>
    if poolJoined items.length s then
      match s.vars.fileErr with
      | some e => some (.failed e, s.vars.progress)
      | none =>
        some (.stats items.length s.vars.tmpSkip s.vars.tmpFinish s.vars.tmpSize,
              s.vars.progress)
    else none

/-- A file that is skipped. -/
def skippedFile : DirItem :=
  { action := .skipped, openErr := none, put := fun _ => none, size := 4 }

/-- A file whose first `c.Put` succeeds. -/
def goodFile : DirItem :=
  { action := .transfer, openErr := none, put := fun _ => none, size := 3 }

/-- A file whose every `c.Put` fails. -/
def badFile : DirItem :=
  { action := .transfer, openErr := none, put := fun _ => some "StatusCode: 500", size := 7 }

/-- An attempt of a `ceph/s3` `Get` worker that does not succeed. -/
def catFails : CephCatAttempt → Bool
  | .catError => true
  | .response statusCode writeFails =>
    (statusCode != "200" && statusCode != "206") || writeFails

/-! ## Request signing (`aws/s3v2/base.go`, `ceph/s3/common.go`, `aws/s3v4/base.go`) -/

/-- The order of Go strings (byte-wise lexicographic, which on UTF-8 text is the
lexicographic order of the code points), on character lists. -/
def charsLe : List Char → List Char → Bool
  | [], _ => true
  | _ :: _, [] => false
  | a :: as, b :: bs =>
    if a.toNat < b.toNat then true
    else if b.toNat < a.toNat then false
    else charsLe as bs

/-- The comparison `a <= b` of Go strings. -/
def strLe (a b : String) : Bool :=
  charsLe a.data b.data

/-- Go `sort.Strings`: the strings in ascending order. -/
def sortStrings (keys : List String) : List String :=
  keys.insertionSort (fun a b => strLe a b = true)

/-- Go `strings.Contains(s, sub)`, on character lists. -/
def containsChars : List Char → List Char → Bool
  | [], sub => sub.isEmpty
  | c :: cs, sub => sub.isPrefixOf (c :: cs) || containsChars cs sub

/-- Go `strings.Contains(s, sub)`. -/
def strContains (s sub : String) : Bool :=
  containsChars s.data sub.data

/-- The names of a header map `map[string]string`, given as the list of its entries:
`for key := range headers { keyList = append(keyList, key) }`. -/
def headerKeys (headers : Options) : List String :=
  headers.map Prod.fst

/-- The library functions of the legacy signer: `hmacSha1 key message` is the HMAC-SHA1 of the
message under the key (`hmac.New(sha1.New, []byte(key))`), `base64` is
`base64.StdEncoding.EncodeToString`. -/
structure LegacyCrypto (Mac : Type) where
  hmacSha1 : String → String → Mac
  base64 : Mac → String

/-- The loop `for _, key := range keyList` of the legacy signer: a header whose name contains
`"x-amz-"` adds `key + ":" + headers[key] + LF`, any other adds `headers[key] + LF`. -/
def S3v2.signLines (headers : Options) : List String → String → String
  | [], sign => sign
  | key :: rest, sign =>
    if strContains key "x-amz-" then
      S3v2.signLines headers rest (sign ++ key ++ ":" ++ opt headers key ++ "\n")
    else
      S3v2.signLines headers rest (sign ++ opt headers key ++ "\n")

/-- The legacy signer `sign` of `aws/s3v2` (`base.go`) and, with the same text, of `ceph/s3`
(`common.go`). -/
def S3v2.sign {Mac : Type} (cr : LegacyCrypto Mac) (accessKeyID accessKeySecret : String)
    (method : String) (headers : Options) (bucket object : String) : String :=
  let sign := method ++ "\n"
  let keyList := sortStrings (headerKeys headers)
  let sign := S3v2.signLines headers keyList sign
  let sign := sign ++ "/"
  let sign := if bucket != "" then sign ++ bucket else sign
  let sign := if object != "" then sign ++ "/" ++ object else sign
  "AWS " ++ accessKeyID ++ ":" ++ cr.base64 (cr.hmacSha1 accessKeySecret sign)

/-- The loop `for _, k := range keys { canonHeader += strings.ToLower(k) + ":" + headers[k] + "\n" }`
of `canonicalHeaders`. -/
def S3v4.canonLines (toLower : String → String) (headers : Options) :
    List String → String → String
  | [], canonHeader => canonHeader
  | k :: rest, canonHeader =>
    S3v4.canonLines toLower headers rest (canonHeader ++ toLower k ++ ":" ++ opt headers k ++ "\n")

/-- `canonicalHeaders` of `aws/s3v4` (`base.go`); `toLower` is `strings.ToLower`. -/
def S3v4.canonicalHeaders (toLower : String → String) (headers : Options) : String :=
  let keys := sortStrings (headerKeys headers)
  S3v4.canonLines toLower headers keys ""

/-- `canonicalSignHeaders` of `aws/s3v4` (`base.go`): `strings.Join(keys, ";")` of the sorted
names. -/
def S3v4.canonicalSignHeaders (headers : Options) : String :=
  let keys := sortStrings (headerKeys headers)
  ";".intercalate keys

/-- `canonicalRequest` of `aws/s3v4` (`base.go`). -/
def S3v4.canonicalRequest (toLower : String → String) (method : String) (headers : Options)
    (uri canonQuery : String) : String :=
  let signHeader := S3v4.canonicalSignHeaders headers
  let canonHeader := S3v4.canonicalHeaders toLower headers
  "\n".intercalate
    [method, uri, canonQuery, canonHeader, signHeader, opt headers "x-amz-content-sha256"]

/-! ## The canonical-request signer (`aws/s3v4/base.go`, `aws/s3v4/init.go`) -/

/-- Field `authHeaderPrefix` set by `New` of `aws/s3v4`. -/
def S3v4.authHeaderPrefix : String := "AWS4-HMAC-SHA256"

/-- Field `awsV4Request` set by `New` of `aws/s3v4`. -/
def S3v4.awsV4Request : String := "aws4_request"

/-- The library functions of the canonical-request signer, over a type of byte strings:
`hmacSHA256 key data` and `hashSHA256 data` (`crypto/hmac`, `crypto/sha256`), `hex`
(`hex.EncodeToString`), `bytes` (the conversion `[]byte(s)`), `toLower` (`strings.ToLower`),
and `dateOf s`, the text `dt.Format(c.iso8601FormatDate)` of the time
`dt, _ := time.Parse(c.iso8601FormatDateTime, s)`. -/
structure V4Lib (Bytes : Type) where
  hmacSHA256 : Bytes → Bytes → Bytes
  hashSHA256 : Bytes → Bytes
  hex : Bytes → String
  bytes : String → Bytes
  toLower : String → String
  dateOf : String → String

/-- `hostInfo := strings.Split(c.host, ".")`. -/
def S3v4.hostInfo (host : String) : List String :=
  (splitChars '.' host.data).map String.mk

/-- `buildCredentialString` of `aws/s3v4`; `date` is `dt.Format(c.iso8601FormatDate)`.
`none`: `hostInfo[1]` is out of range. -/
def S3v4.buildCredentialString (host date : String) : Option String :=
  match (S3v4.hostInfo host)[1]?, (S3v4.hostInfo host)[0]? with
  | some region, some service =>
    some (date ++ "/" ++ region ++ "/" ++ service ++ "/" ++ S3v4.awsV4Request)
  | _, _ => none

/-- `deriveSigningKey` of `aws/s3v4`. -/
def S3v4.deriveSigningKey {Bytes : Type} (lib : V4Lib Bytes) (host accessKeySecret date : String) :
    Option Bytes :=
  match (S3v4.hostInfo host)[1]?, (S3v4.hostInfo host)[0]? with
  | some region, some service =>
    let kDate := lib.hmacSHA256 (lib.bytes ("AWS4" ++ accessKeySecret)) (lib.bytes date)
    let kRegion := lib.hmacSHA256 kDate (lib.bytes region)
    let kService := lib.hmacSHA256 kRegion (lib.bytes service)
    let signingKey := lib.hmacSHA256 kService (lib.bytes S3v4.awsV4Request)
    some signingKey
  | _, _ => none

/-- `stringToSign` of `aws/s3v4`. -/
def S3v4.stringToSign {Bytes : Type} (lib : V4Lib Bytes) (host : String) (method : String)
    (headers : Options) (uri canonQuery date : String) : Option String :=
  match S3v4.buildCredentialString host date with
  | none => none
  | some credentialString =>
    let canonicalString := S3v4.canonicalRequest lib.toLower method headers uri canonQuery
    some ("\n".intercalate
      [S3v4.authHeaderPrefix, opt headers "x-amz-date", credentialString,
       lib.hex (lib.hashSHA256 (lib.bytes canonicalString))])

/-- `buildSignature` of `aws/s3v4`. -/
def S3v4.buildSignature {Bytes : Type} (lib : V4Lib Bytes) (host accessKeySecret : String)
    (method : String) (headers : Options) (uri canonQuery date : String) : Option String :=
  match S3v4.deriveSigningKey lib host accessKeySecret date with
  | none => none
  | some signKey =>
    match S3v4.stringToSign lib host method headers uri canonQuery date with
    | none => none
    | some strToSign =>
      let signature := lib.hmacSHA256 signKey (lib.bytes strToSign)
      some (lib.hex signature)

/-- `sign` of `aws/s3v4`.  `none`: an index into `hostInfo` is out of range. -/
def S3v4.sign {Bytes : Type} (lib : V4Lib Bytes) (host accessKeyID accessKeySecret : String)
    (method : String) (headers : Options) (uri canonQuery : String) : Option String :=
  let date := lib.dateOf (opt headers "x-amz-date")
  match S3v4.buildCredentialString host date with
  | none => none
  | some credentialString =>
    let signHeaders := S3v4.canonicalSignHeaders headers
    match S3v4.buildSignature lib host accessKeySecret method headers uri canonQuery date with
    | none => none
    | some signature =>
      some (S3v4.authHeaderPrefix ++ " Credential=" ++ accessKeyID ++ "/" ++ credentialString ++
        ", SignedHeaders=" ++ signHeaders ++ ", Signature=" ++ signature)

/-- The first eight characters of a text. -/
def firstEight (s : String) : String :=
  String.mk (s.data.take 8)

/-- Stand-ins for the library functions that keep their arguments readable, used to evaluate
the signers on examples: MAC and hash are written out as text. -/
def plainV4Lib : V4Lib String :=
  { hmacSHA256 := fun key data => "hmac(" ++ key ++ "," ++ data ++ ")",
    hashSHA256 := fun data => "sha256(" ++ data ++ ")",
    hex := fun b => b,
    bytes := fun s => s,
    toLower := asciiToLower,
    dateOf := firstEight }

/-- Stand-ins for the library functions of the legacy signer that hand the signed string
through unchanged, used to show the string that is signed. -/
def plainLegacyCrypto : LegacyCrypto String :=
  { hmacSha1 := fun _ message => message, base64 := fun mac => mac }

/-! ## Responses of the object operations (`object.go`, `multi.go`, `storageutil/base.go`) -/

/-- What the operations read of the map returned by the transport (`CURL`, `Header`): the
entry `StatusCode`, and the entries `X-Amz-Request-Id` and `Etag` copied from the response
headers (`none`: the response has no such header, so the map has no such entry). -/
structure Response where
  statusCode : Int
  requestId : Option String
  etag : Option String
deriving DecidableEq, Repr

/-- How a call of an operation ends: with a result, with an error, or in the run-time panic of
a type assertion `resp[...].(string)` on an absent entry. -/
inductive CallResult (α : Type) where
  | ok (result : α)
  | error (msg : String)
  | aborted
deriving DecidableEq, Repr

/-- `Head` of `aws/s3v2`, from the result of the transport on. -/
def S3v2.Head (object : String) (transport : Except String Response) : CallResult Response :=
  match transport with
  | .error err => .error (" Head Object: " ++ object ++ " Error: " ++ err)
  | .ok resp =>
    let status := resp.statusCode
    match resp.requestId with
    | none => .aborted
    | some reqID =>
      if status != 200 then
        .error (" Head Object: " ++ object ++ " StatusCode: " ++ toString status ++
          " X-Amz-Request-Id: " ++ reqID)
      else .ok resp

/-- `Delete` of `aws/s3v2`, from the result of the transport on. -/
def S3v2.Delete (object : String) (transport : Except String Response) : CallResult Response :=
  match transport with
  | .error err => .error (" Delete Object: " ++ object ++ " Error: " ++ err)
  | .ok resp =>
    let status := resp.statusCode
    match resp.requestId with
    | none => .aborted
    | some reqID =>
      if status != 200 && status != 204 then
        .error (" Delete Object: " ++ object ++ " StatusCode: " ++ toString status ++
          " X-Amz-Request-Id: " ++ reqID)
      else .ok resp

/-- `Cat` of `aws/s3v2`, from the result of the transport on. -/
def S3v2.Cat (object : String) (transport : Except String Response) : CallResult Response :=
  match transport with
  | .error err => .error (" Cat Object: " ++ object ++ " Error: " ++ err)
  | .ok resp =>
    let status := resp.statusCode
    match resp.requestId with
    | none => .aborted
    | some reqID =>
      if status != 200 && status != 206 then
        .error (" Cat Object: " ++ object ++ " StatusCode: " ++ toString status ++
          " X-Amz-Request-Id: " ++ reqID)
      else .ok resp

/-- `UploadPart` of `aws/s3v2`, from the result of the transport on;
`object += fmt.Sprintf("?partNumber=%d&uploadId=%s", partNumber, uploadID)`. -/
def S3v2.UploadPart (object : String) (partNumber : Nat) (uploadID : String)
    (transport : Except String Response) : CallResult Response :=
  let object := object ++ ("?partNumber=" ++ toString partNumber ++ "&uploadId=" ++ uploadID)
  match transport with
  | .error err => .error (" UploadPart Object: " ++ object ++ " Error: " ++ err)
  | .ok resp =>
    let status := resp.statusCode
    match resp.requestId with
    | none => .aborted
    | some reqID =>
      if status != 200 then
        .error (" UploadPart Object: " ++ object ++ " StatusCode: " ++ toString status ++
          " X-Amz-Request-Id: " ++ reqID)
      else .ok resp

/-- `CancelPart` of `aws/s3v2`, from the result of the transport on;
`object += fmt.Sprintf("?uploadId=%s", uploadID)`. -/
def S3v2.CancelPart (object : String) (uploadID : String)
    (transport : Except String Response) : CallResult Response :=
  let object := object ++ ("?uploadId=" ++ uploadID)
  match transport with
  | .error err => .error (" CancelPart Object: " ++ object ++ " Error: " ++ err)
  | .ok resp =>
    let status := resp.statusCode
    match resp.requestId with
    | none => .aborted
    | some reqID =>
      if status != 204 then
        .error (" CancelPart Object: " ++ object ++ " StatusCode: " ++ toString status ++
          " X-Amz-Request-Id: " ++ reqID)
      else .ok resp

/-- The map `Put` returns on success. -/
structure PutResult where
  requestId : String
  statusCode : Int
  location : String
  size : Int
  bucket : String
  etag : String
  key : String
deriving DecidableEq, Repr

/-- `Put` of `aws/s3v2`, from the result of the transport on; the result holds
`"ETag": resp["Etag"].(string)`. -/
def S3v2.Put (host bucket object : String) (bodySize : Int)
    (transport : Except String Response) : CallResult PutResult :=
  match transport with
  | .error err => .error (" Put Object: " ++ object ++ " Error: " ++ err)
  | .ok resp =>
    let status := resp.statusCode
    match resp.requestId with
    | none => .aborted
    | some reqID =>
      if status != 200 then
        .error (" Put Object: " ++ object ++ " StatusCode: " ++ toString status ++
          " X-Amz-Request-Id: " ++ reqID)
      else
        match resp.etag with
        | none => .aborted
        | some etag =>
          .ok { requestId := reqID, statusCode := status,
                location := "http://" ++ bucket ++ "." ++ host ++ "/" ++ object,
                size := bodySize, bucket := bucket, etag := etag, key := object }

/-! ## The sweep of `DeleteAllPart` (`bucket.go` of `aws/s3v2` and `aws/s3v4`) -/

/-- An element of `ListPartsResult.Upload`. -/
structure UploadEntry where
  key : String
  uploadID : String
  initiated : String
deriving DecidableEq, Repr

/-- The value `strconv.Atoi` returns when its error is discarded (`expired, _ := strconv.Atoi(...)`):
`0` on bad syntax, the nearest bound of the 64-bit range on a value out of range. -/
def atoiValue (s : String) : Int :=
  match s.data with
  | [] => 0
  | c :: cs =>
    if c = '-' then
      match parseUnsigned cs with
      | some n => if n ≤ 2 ^ 63 then -(n : Int) else -(2 ^ 63)
      | none => 0
    else if c = '+' then
      match parseUnsigned cs with
      | some n => if n < 2 ^ 63 then (n : Int) else 2 ^ 63 - 1
      | none => 0
    else
      match parseUnsigned (c :: cs) with
      | some n => if n < 2 ^ 63 then (n : Int) else 2 ^ 63 - 1
      | none => 0

/-- The test `err == nil && time.Since(lastModified).Seconds() < float64(expired)` on one
upload.  `age initiated` is what the time library gives for the text `Initiated`: `none` when
`time.Parse("2006-01-02T15:04:05.000Z", ...)` returns an error, otherwise the duration
`time.Since(lastModified)` in nanoseconds.  The comparison is taken exactly; the rounding of
the conversion to `float64` is not modelled. -/
def isYoung (age : String → Option Int) (expired : Int) (v : UploadEntry) : Bool :=
  match age v.initiated with
  | some d => decide (d < expired * 1000000000)
  | none => false

/-- The loop `for _, v := range list.Upload` of `DeleteAllPart` over one page, on the counter
`tmpSkip` and the list `bodyList` of the uploads to cancel. -/
def sweepPage (age : String → Option Int) (options : Options) :
    List UploadEntry → Nat × List UploadEntry → Nat × List UploadEntry
  | [], acc => acc
  | v :: rest, (tmpSkip, bodyList) =>
    let expired := atoiValue (opt options "expired")
    if isYoung age expired v then sweepPage age options rest (tmpSkip + 1, bodyList)
    else sweepPage age options rest (tmpSkip, bodyList ++ [v])

/-! ## The admission loop, with the exit check and the send on the pool apart -/

/-- An event of the admission loop at the grain of its statements: the main goroutine reads
the exit flag (`if exit { break }`), the main goroutine sends on the pool
(`queueMaxSize <- true`) and starts the worker, or a started worker runs to its end. -/
inductive LoopEvent where
  | check
  | push
  | run (p : Nat)
deriving DecidableEq, Repr

/-- The state of the admission loop with the position of the main goroutine: `atPush` holds
when it has passed the exit check of the current iteration and is at `queueMaxSize <- true`. -/
structure LoopState (σ : Type) where
  pool : PoolState σ
  atPush : Bool

/-- One event at the grain of the statements.  `push` needs room in the pool; on a full pool
the main goroutine stays blocked at the send. -/
def loopStep {σ : Type} (ops : PoolOps σ) (total cap : Nat) (s : LoopState σ) :
    LoopEvent → Option (LoopState σ)
  | .check =>
    if s.atPush || s.pool.loopBroken || total ≤ s.pool.next then none
    else if ops.exitFlag s.pool.vars then
      some { s with pool := { s.pool with loopBroken := true } }
    else some { s with atPush := true }
  | .push =>
    if s.atPush && s.pool.held < cap then
      some { pool := { s.pool with next := s.pool.next + 1,
                                   running := s.pool.running ++ [s.pool.next],
                                   held := s.pool.held + 1 },
             atPush := false }
    else none
  | .run p =>
    if s.pool.running.contains p then
      match ops.worker p s.pool.vars with
      | none => none
      | some (v, released) =>
        some { s with pool := { s.pool with running := s.pool.running.erase p,
                                            held := if released then s.pool.held - 1
                                                    else s.pool.held,
                                            vars := v } }
    else none

/-- The events of a schedule, one after the other. -/
def loopRun {σ : Type} (ops : PoolOps σ) (total cap : Nat) :
    List LoopEvent → LoopState σ → Option (LoopState σ)
  | [], s => some s
  | e :: es, s =>
    match loopStep ops total cap s e with
    | none => none
    | some s => loopRun ops total cap es s

/-- The main goroutine is blocked at the send on a full pool and no worker is left to take a
value out of it. -/
def loopBlocked {σ : Type} (cap : Nat) (s : LoopState σ) : Bool :=
  s.atPush && decide (cap ≤ s.pool.held) && s.pool.running.isEmpty

/-- The admission loop of `UploadLargeFile`: the deferred function of the worker ends with
`<-queueMaxSize`. -/
def uploadOps (uploadPart : Nat → Nat → PartResp) : PoolOps JobVars :=
  { exitFlag := fun v => v.uploadExit,
    worker := fun partNum v =>
      match uploadWorker uploadPart partNum v with
      | none => none
      | some v => some (v, true) }

/-! ## Part worker of `SyncLargeFile` (`sync.go`) -/

/-- The first loop of the `SyncLargeFile` worker, `cat, syncErr := c.Cat(...)`: the result is
the shared variables and `partBody["Body"]` (`none`: the map has no such entry).
`cat partNumber i` is what the `i`-th `c.Cat` gives: an error, or a response with or without
the entry `Body`. -/
def syncCatLoop (cat : Nat → Nat → Except String (Option String)) (partNum : Nat) :
    Nat → Nat → JobVars → JobVars × Option String
  | 0, _, v => (v, none)
  | left + 1, i, v =>
    match cat (partNum + 1) i with
    | .error syncErr => syncCatLoop cat partNum left (i + 1) { v with partErr := some syncErr }
    | .ok body => ({ v with partErr := none }, body)

/-- The second loop of the `SyncLargeFile` worker, `toClient.UploadPart(...)`:
an error is kept in `partErr`; a response without the entry `Etag` is passed over with
`continue`; a response with it sets `partErr = nil` and records the ETag. -/
def syncUploadLoop (uploadPart : Nat → Nat → PartResp) (partNum : Nat) :
    Nat → Nat → JobVars → JobVars
  | 0, _, v => v
  | left + 1, i, v =>
    let v := { v with requests := v.requests ++ [(partNum + 1, i)] }
    match uploadPart (partNum + 1) i with
    | .err syncErr => syncUploadLoop uploadPart partNum left (i + 1) { v with partErr := some syncErr }
    | .ok none => syncUploadLoop uploadPart partNum left (i + 1) v
    | .ok (some etag) =>
      { v with partErr := none, uploadPartList := recordEtag v.uploadPartList (partNum, etag) }

/-- The deferred function of the `SyncLargeFile` worker: `if partErr != nil { partExit = true }`
(the flag `partExit` is the field `uploadExit`). -/
def syncDeferred (v : JobVars) : JobVars :=
  if v.partErr.isSome then { v with uploadExit := true } else v

/-- The `SyncLargeFile` worker of part `partNum`. -/
def syncWorker (cat : Nat → Nat → Except String (Option String))
    (uploadPart : Nat → Nat → PartResp) (partNum : Nat) (v : JobVars) : JobVars :=
  let r := syncCatLoop cat partNum maxRetryNum 0 v
  let v := r.1
  if v.partErr.isSome then syncDeferred v
  else
    match r.2 with
    | none => syncDeferred v
    | some _ =>
      let v := syncUploadLoop uploadPart partNum maxRetryNum 0 v
      if v.partErr.isSome then syncDeferred v
      else syncDeferred { v with progress := v.progress + 1 }

/-- The admission loop of `SyncLargeFile`. -/
def syncOps (cat : Nat → Nat → Except String (Option String))
    (uploadPart : Nat → Nat → PartResp) : PoolOps JobVars :=
  { exitFlag := fun v => v.uploadExit,
    worker := fun partNum v => some (syncWorker cat uploadPart partNum v, true) }

/-- The outcome of `SyncLargeFile` on `total` parts with thread number `threadNum` under a
schedule: after `wg.Wait()` it returns `partErr`, or posts the manifest `completeSyncInfo`;
`none` when the schedule is not a complete run. -/
def runSyncLargeFile (cat : Nat → Nat → Except String (Option String))
    (uploadPart : Nat → Nat → PartResp) (total threadNum : Nat) (schedule : List Event) :
    Option JobOutcome :=
  match poolRun (syncOps cat uploadPart) total (poolSize total threadNum) schedule
      (poolInit (initJob total).vars) with
  | none => none
  | some s =>
    if poolJoined total s then
      match s.vars.partErr with
      | some e => some (.failed e)
      | none => some (.completed (completeUploadInfo s.vars.uploadPartList))
    else none

/-! ## The suffix filter of `WalkDir` (`storageutil/base.go`) -/

/-- The loop `for _, tmpSuffix := range suffixList` of `WalkDir` on the flag `allowed`:
a non-empty entry sets `allowed = false`, and `allowed = true` with `break` when it is a
suffix of the lower-cased file name. -/
def allowedLoop (lowerName : String) : List String → Bool → Bool
  | [], allowed => allowed
  | tmpSuffix :: rest, allowed =>
    if tmpSuffix != "" then
      if hasSuffix lowerName tmpSuffix then true else allowedLoop lowerName rest false
    else allowedLoop lowerName rest allowed

/-- The flag `allowed` of `WalkDir` for a file name: the file is put on the list that
`UploadFromDir` uploads when it holds.  `toLower` is `strings.ToLower`. -/
def walkDirAllowed (toLower : String → String) (suffix : String) (fileName : String) : Bool :=
  if suffix != "" then allowedLoop (toLower fileName) (splitComma suffix) true
  else true

/-- The file names `WalkDir` returns, of the names of the regular files it visits. -/
def walkDirList (toLower : String → String) (suffix : String) (fileNames : List String) :
    List String :=
  fileNames.filter (walkDirAllowed toLower suffix)

/-- The map obtained from a header map by lower-casing every header name. -/
def lowerNames (toLower : String → String) (headers : Options) : Options :=
  headers.map (fun kv => (toLower kv.1, kv.2))

/-! # Properties -/

/-! ### Lemmas on the part count -/

theorem totalParts_eq_ediv (S P : Int) (hS : 0 ≤ S) (hP : 1 ≤ P) :
    totalParts S P = (S + P - 1) / P := by
  unfold totalParts
  exact Int.tdiv_eq_ediv (by omega) (by omega)

theorem totalParts_mul_ge (S P : Int) (hS : 0 ≤ S) (hP : 1 ≤ P) :
    S ≤ totalParts S P * P := by
  rw [totalParts_eq_ediv S P hS hP]
  have h := Int.lt_ediv_add_one_mul_self (S + P - 1) (show (0 : Int) < P by omega)
  have e : ((S + P - 1) / P + 1) * P = (S + P - 1) / P * P + P := by ring
  omega

theorem totalParts_pred_mul_lt (S P : Int) (hS : 0 ≤ S) (hP : 1 ≤ P) :
    (totalParts S P - 1) * P < S := by
  rw [totalParts_eq_ediv S P hS hP]
  have h := Int.ediv_mul_le (S + P - 1) (show P ≠ 0 by omega)
  have e : ((S + P - 1) / P - 1) * P = (S + P - 1) / P * P - P := by ring
  omega

theorem totalParts_nonneg (S P : Int) (hS : 0 ≤ S) (hP : 1 ≤ P) : 0 ≤ totalParts S P := by
  rw [totalParts_eq_ediv S P hS hP]
  exact Int.ediv_nonneg (by omega) (by omega)

theorem totalParts_zero (P : Int) (hP : 1 ≤ P) : totalParts 0 P = 0 := by
  rw [totalParts_eq_ediv 0 P (le_refl 0) hP]
  exact Int.ediv_eq_zero_of_lt (by omega) (by omega)

/-- The part count is the only `t` with `(t-1)*P < S ≤ t*P`. -/
theorem totalParts_unique (S P t : Int) (hS : 0 ≤ S) (hP : 1 ≤ P)
    (h1 : (t - 1) * P < S) (h2 : S ≤ t * P) : t = totalParts S P := by
  have a := totalParts_mul_ge S P hS hP
  have b := totalParts_pred_mul_lt S P hS hP
  rcases lt_trichotomy t (totalParts S P) with h | h | h
  · have : t * P ≤ (totalParts S P - 1) * P :=
      Int.mul_le_mul_of_nonneg_right (by omega) (by omega)
    omega
  · exact h
  · have : totalParts S P * P ≤ (t - 1) * P :=
      Int.mul_le_mul_of_nonneg_right (by omega) (by omega)
    omega


/-! ### Byte ranges of the ranged loops -/

theorem totalParts_cases (S P : Int) (hS : 0 ≤ S) (hP : 1 ≤ P) :
    totalParts S P = if S % P = 0 then S / P else S / P + 1 := by
  have hd := Int.emod_add_ediv S P
  have hm := Int.emod_nonneg S (show P ≠ 0 by omega)
  have hl := Int.emod_lt_of_pos S (show (0 : Int) < P by omega)
  symm
  split
  · apply totalParts_unique S P _ hS hP
    · have e : (S / P - 1) * P = P * (S / P) - P := by ring
      omega
    · have e : S / P * P = P * (S / P) := by ring
      omega
  · apply totalParts_unique S P _ hS hP
    · have e : (S / P + 1 - 1) * P = P * (S / P) := by ring
      omega
    · have e : (S / P + 1) * P = P * (S / P) + P := by ring
      omega

/-- Where the clamp of the ranged loops is exact: unless `S + 1` is a multiple of a part size
`P ≥ 2`, the final part's range ends at `S - 1`. -/
theorem partRange_final_exact (S P : Int) (hS : 1 ≤ S) (hP : 1 ≤ P)
    (h : (S + 1) % P ≠ 0 ∨ P = 1) :
    partRange S P (totalParts S P - 1) = ((totalParts S P - 1) * P, S - 1) := by
  have hd := Int.emod_add_ediv S P
  have hm := Int.emod_nonneg S (show P ≠ 0 by omega)
  have hl := Int.emod_lt_of_pos S (show (0 : Int) < P by omega)
  have ht : Int.tmod S P = S % P := Int.tmod_eq_emod (by omega) (by omega)
  have hne : S % P ≠ P - 1 ∨ P = 1 := by
    rcases h with h | h
    · left
      intro hc
      apply h
      have : S + 1 = P * (S / P + 1) := by
        have e : P * (S / P + 1) = P * (S / P) + P := by ring
        omega
      rw [this]
      exact Int.mul_emod_right _ _
    · right; exact h
  unfold partRange
  rw [totalParts_cases S P (by omega) hP, ht]
  by_cases h0 : S % P = 0
  · simp only [h0, if_true]
    have e1 : (S / P - 1 + 1) * P = P * (S / P) := by ring
    have e2 : (S / P - 1) * P = P * (S / P) - P := by ring
    rw [e1, e2]
    have : ¬ (P * (S / P) - 1 > S) := by omega
    simp only [this, if_false]
    congr 1
    omega
  · simp only [h0, if_false]
    have e1 : (S / P + 1 - 1 + 1) * P = P * (S / P) + P := by ring
    have e2 : (S / P + 1 - 1) * P = P * (S / P) := by ring
    rw [e1, e2]
    have : P * (S / P) + P - 1 > S := by omega
    simp only [this, if_true]
    congr 1
    omega

/-- Where the clamp of the ranged loops misses: when `S + 1` is a multiple of a part size
`P ≥ 2`, the final part's range ends at `S`, one past the last byte. -/
theorem partRange_final_overrun (S P : Int) (hS : 1 ≤ S) (hP : 2 ≤ P)
    (h : (S + 1) % P = 0) :
    partRange S P (totalParts S P - 1) = ((totalParts S P - 1) * P, S) := by
  have hd := Int.emod_add_ediv S P
  have hm := Int.emod_nonneg S (show P ≠ 0 by omega)
  have hl := Int.emod_lt_of_pos S (show (0 : Int) < P by omega)
  have hr : S % P = P - 1 := by
    have h1 : (S + 1) % P = (S % P + 1) % P := by
      rw [Int.add_emod, Int.emod_eq_of_lt (a := 1) (by omega) (by omega)]
    rw [h1] at h
    by_contra hc
    have : (S % P + 1) % P = S % P + 1 := Int.emod_eq_of_lt (by omega) (by omega)
    omega
  unfold partRange
  rw [totalParts_cases S P (by omega) (by omega)]
  have h0 : S % P ≠ 0 := by omega
  simp only [h0, if_false]
  have e1 : (S / P + 1 - 1 + 1) * P = P * (S / P) + P := by ring
  have e2 : (S / P + 1 - 1) * P = P * (S / P) := by ring
  rw [e1, e2]
  have : ¬ (P * (S / P) + P - 1 > S) := by omega
  simp only [this, if_false]
  congr 1
  omega

/-- Claim C1 at a failing input, for an object of `S = 1048575` bytes and the part size
`P = 1048576` (`partMinSize`, the part size `Get` uses by default): there is one part, and the
range the ranged loops of `CopyLargeFile`, `SyncLargeFile` and `Get` compute for it is
`bytes=0-1048575`; its end offset is `S`, not `S - 1`. -/
theorem partRange_final_reaches_size :
    totalParts 1048575 partMinSize = 1 ∧
    partRange 1048575 partMinSize (totalParts 1048575 partMinSize - 1) = (0, 1048575) ∧
    (partRange 1048575 partMinSize (totalParts 1048575 partMinSize - 1)).2 ≠ 1048575 - 1 := by
  decide


/-! ### Part count and upload sections -/

theorem totalParts_eq_ceil (S P : Int) (hS : 0 ≤ S) (hP : 1 ≤ P) :
    totalParts S P = Int.ceil ((S : ℚ) / (P : ℚ)) := by
  symm
  rw [Int.ceil_eq_iff]
  have hPq : (0 : ℚ) < (P : ℚ) := by exact_mod_cast (show (0 : Int) < P by omega)
  have a := totalParts_mul_ge S P hS hP
  have b := totalParts_pred_mul_lt S P hS hP
  constructor
  · rw [lt_div_iff₀ hPq]
    exact_mod_cast b
  · rw [div_le_iff₀ hPq]
    exact_mod_cast a

/-- Claim C3: for every size `S ≥ 0` and part size `P ≥ 1` the part count
`(S + P - 1) / P` of `UploadLargeFile`, `CopyLargeFile`, `SyncLargeFile` and `Get` is
`ceil(S/P)`: it is `0` for `S = 0`, it satisfies `(total-1)*P < S ≤ total*P`, and it is the
only integer that does. -/
theorem totalParts_is_ceil (S P : Int) (hS : 0 ≤ S) (hP : 1 ≤ P) :
    totalParts S P = Int.ceil ((S : ℚ) / (P : ℚ)) ∧
    (S = 0 → totalParts S P = 0) ∧
    ((totalParts S P - 1) * P < S ∧ S ≤ totalParts S P * P) ∧
    (∀ t : Int, (t - 1) * P < S → S ≤ t * P → t = totalParts S P) :=
  ⟨totalParts_eq_ceil S P hS hP,
   fun h => h ▸ totalParts_zero P hP,
   ⟨totalParts_pred_mul_lt S P hS hP, totalParts_mul_ge S P hS hP⟩,
   fun t h1 h2 => totalParts_unique S P t hS hP h1 h2⟩

theorem totalParts_is_ceil_witness :
    totalParts 262144000 104857600 = 3 ∧
    (totalParts 262144000 104857600 = Int.ceil (((262144000 : Int) : ℚ) / ((104857600 : Int) : ℚ)) ∧
    ((262144000 : Int) = 0 → totalParts 262144000 104857600 = 0) ∧
    ((totalParts 262144000 104857600 - 1) * 104857600 < 262144000 ∧
      262144000 ≤ totalParts 262144000 104857600 * 104857600) ∧
    (∀ t : Int, (t - 1) * 104857600 < 262144000 → 262144000 ≤ t * 104857600 →
      t = totalParts 262144000 104857600)) :=
  ⟨by decide, totalParts_is_ceil 262144000 104857600 (by decide) (by decide)⟩

theorem uploadSection_snd (S P : Int) (i : Int) :
    (uploadSection S P i).2 = min P (S - i * P) := by
  unfold uploadSection
  simp only
  rw [min_def]
  split <;> split <;> omega

theorem uploadSections_sum_prefix (S P : Int) (hS : 0 ≤ S) (hP : 1 ≤ P) (n : Nat)
    (hn : (n : Int) ≤ totalParts S P) :
    ((List.range n).map (fun i : Nat => (uploadSection S P (i : Int)).2)).sum
      = min ((n : Int) * P) S := by
  have b := totalParts_pred_mul_lt S P hS hP
  induction n with
  | zero => simp [hS]
  | succ n ih =>
    have hn1 : (n : Int) ≤ totalParts S P - 1 := by push_cast at hn; omega
    have hlt : (n : Int) * P < S := by
      have : (n : Int) * P ≤ (totalParts S P - 1) * P :=
        Int.mul_le_mul_of_nonneg_right hn1 (by omega)
      omega
    rw [List.range_succ, List.map_append, List.sum_append, ih (by omega)]
    simp only [List.map_cons, List.map_nil, List.sum_cons, List.sum_nil, add_zero]
    rw [uploadSection_snd]
    have e : ((n + 1 : Nat) : Int) * P = (n : Int) * P + P := by push_cast; ring
    rw [e, min_def, min_def, min_def]
    split <;> split <;> split <;> omega

/-- Claim C2: for every file size `S ≥ 0` and part size `P ≥ 1`, `UploadLargeFile` reads
`total = ceil(S/P)` sections; section `i` has offset `i*P` and length `min(P, S - i*P)`, every
length lies in `[1, P]`, the lengths add up to `S`, and the last section has length `S mod P`
when that is not zero and `P` otherwise. -/
theorem uploadSections_partition (S P : Int) (hS : 0 ≤ S) (hP : 1 ≤ P) :
    (uploadSections S P).length = (totalParts S P).toNat ∧
    (∀ i : Nat, i < (totalParts S P).toNat →
      (uploadSections S P)[i]? = some ((i : Int) * P, min P (S - (i : Int) * P))) ∧
    (∀ p ∈ uploadSections S P, 1 ≤ p.2 ∧ p.2 ≤ P) ∧
    ((uploadSections S P).map Prod.snd).sum = S ∧
    (∀ last, (uploadSections S P).getLast? = some last →
      last.2 = if S % P ≠ 0 then S % P else P) := by
  have a := totalParts_mul_ge S P hS hP
  have b := totalParts_pred_mul_lt S P hS hP
  have t0 := totalParts_nonneg S P hS hP
  have hcast : (((totalParts S P).toNat : Nat) : Int) = totalParts S P := Int.toNat_of_nonneg t0
  have hbelow : ∀ i : Nat, i < (totalParts S P).toNat → (i : Int) * P < S := by
    intro i hi
    have h1 : (i : Int) ≤ totalParts S P - 1 := by omega
    have : (i : Int) * P ≤ (totalParts S P - 1) * P :=
      Int.mul_le_mul_of_nonneg_right h1 (by omega)
    omega
  refine ⟨by simp [uploadSections], ?_, ?_, ?_, ?_⟩
  · intro i hi
    have hs := uploadSection_snd S P (i : Int)
    simp only [uploadSections, List.getElem?_map, List.getElem?_range hi, Option.map_some']
    rw [← hs]
    rfl
  · intro p hp
    simp only [uploadSections, List.mem_map, List.mem_range] at hp
    obtain ⟨i, hi, rfl⟩ := hp
    rw [uploadSection_snd]
    have := hbelow i hi
    rw [min_def]
    split <;> omega
  · have h := uploadSections_sum_prefix S P hS hP (totalParts S P).toNat (by omega)
    have e : (uploadSections S P).map Prod.snd
        = (List.range (totalParts S P).toNat).map (fun i : Nat => (uploadSection S P (i : Int)).2) := by
      simp [uploadSections, List.map_map, Function.comp_def]
    rw [e, h, hcast, min_def]
    split <;> omega
  · intro last hlast
    have hd := Int.emod_add_ediv S P
    have hm := Int.emod_nonneg S (show P ≠ 0 by omega)
    have hl := Int.emod_lt_of_pos S (show (0 : Int) < P by omega)
    have hc := totalParts_cases S P hS hP
    rcases ht : (totalParts S P).toNat with _ | n
    · simp [uploadSections, ht] at hlast
    · have hn : (n : Int) = totalParts S P - 1 := by omega
      simp only [uploadSections, ht, List.range_succ, List.map_append, List.map_cons,
        List.map_nil, List.getLast?_append, List.getLast?_singleton, Option.or_some] at hlast
      cases hlast
      rw [uploadSection_snd, hn, min_def]
      by_cases h0 : S % P = 0
      · simp only [h0, if_true] at hc
        rw [hc]
        have e : (S / P - 1) * P = P * (S / P) - P := by ring
        rw [e]
        simp only [h0, ne_eq, not_true_eq_false, if_false]
        split <;> omega
      · simp only [h0, if_false] at hc
        rw [hc]
        have e : (S / P + 1 - 1) * P = P * (S / P) := by ring
        rw [e]
        simp only [h0, ne_eq, not_false_eq_true, if_true]
        split <;> omega


theorem uploadSections_partition_witness :
    uploadSections 262144000 104857600 =
      [(0, 104857600), (104857600, 104857600), (209715200, 52428800)] ∧
    ((uploadSections 262144000 104857600).length = (totalParts 262144000 104857600).toNat ∧
    (∀ i : Nat, i < (totalParts 262144000 104857600).toNat →
      (uploadSections 262144000 104857600)[i]? =
        some ((i : Int) * 104857600, min 104857600 (262144000 - (i : Int) * 104857600))) ∧
    (∀ p ∈ uploadSections 262144000 104857600, 1 ≤ p.2 ∧ p.2 ≤ 104857600) ∧
    ((uploadSections 262144000 104857600).map Prod.snd).sum = 262144000 ∧
    (∀ last, (uploadSections 262144000 104857600).getLast? = some last →
      last.2 = if (262144000 : Int) % 104857600 ≠ 0 then 262144000 % 104857600 else 104857600)) :=
  ⟨by decide, uploadSections_partition 262144000 104857600 (by decide) (by decide)⟩

/-! ### Completion manifest -/

theorem join_cons (a : String) (l : List String) : String.join (a :: l) = a ++ String.join l := by
  apply String.ext
  simp [String.data_join]

theorem appendParts_eq (e : Nat → String) (n k : Nat) (info : String) :
    appendParts k ((List.range' k n).map e) info
      = info ++ String.join ((List.range' k n).map (fun i => partEntry i (e i))) := by
  induction n generalizing k info with
  | zero => simp [appendParts, String.join]
  | succ n ih =>
    simp only [List.range'_succ, List.map_cons, appendParts, join_cons]
    rw [ih, String.append_assoc]

theorem recordAll_fold (e : Nat → String) (order : List Nat) (l : List String) :
    ((order.map (fun i => (i, e i))).foldl recordEtag l).length = l.length ∧
    ∀ j : Nat, ((order.map (fun i => (i, e i))).foldl recordEtag l)[j]?
      = if j ∈ order ∧ j < l.length then some (e j) else l[j]? := by
  induction order generalizing l with
  | nil => simp
  | cons i rest ih =>
    simp only [List.map_cons, List.foldl_cons, recordEtag]
    obtain ⟨h1, h2⟩ := ih (l.set i (e i))
    refine ⟨by rw [h1, List.length_set], ?_⟩
    intro j
    rw [h2 j, List.length_set, List.getElem?_set]
    by_cases hj : j < l.length
    · by_cases hr : j ∈ rest
      · simp [hr, hj]
      · by_cases hij : i = j
        · subst hij; simp [hr, hj]
        · have : ¬ j = i := fun h => hij h.symm
          simp [hr, hj, hij, this]
    · have hn : l[j]? = none := by simp; omega
      by_cases hij : i = j
      · subst hij; simp [hj, hn]
      · simp [hj, hij]

theorem recordAll_perm (N : Nat) (e : Nat → String) (order : List Nat)
    (h : order.Perm (List.range N)) :
    recordAll N (order.map (fun i => (i, e i))) = (List.range N).map e := by
  obtain ⟨h1, h2⟩ := recordAll_fold e order (List.replicate N "")
  apply List.ext_getElem?
  intro j
  unfold recordAll
  rw [h2 j]
  simp only [List.length_replicate, List.getElem?_map]
  by_cases hj : j < N
  · have : j ∈ order := h.mem_iff.mpr (List.mem_range.mpr hj)
    simp [this, hj, List.getElem?_range hj]
  · have h3 : (List.range N)[j]? = none := by simp; omega
    have h4 : (List.replicate N "")[j]? = none := by simp; omega
    simp [hj, h3, h4]

/-- Claim C4: for every `N` and every order in which the `N` part workers record their ETags,
the completion manifest of `UploadLargeFile` / `CopyLargeFile` / `SyncLargeFile` is
`<CompleteMultipartUpload>`, then the `N` entries
`<Part><PartNumber>i</PartNumber><ETag>e_i</ETag></Part>` for `i = 1, ..., N` in ascending
order, `e_i` being the ETag recorded for part `i`, then `</CompleteMultipartUpload>`. -/
theorem completeUploadInfo_ascending (N : Nat) (e : Nat → String) (order : List Nat)
    (h : order.Perm (List.range N)) :
    completeUploadInfo (recordAll N (order.map (fun i => (i, e i)))) =
      "<CompleteMultipartUpload>" ++
      String.join ((List.range N).map (fun i =>
        "<Part><PartNumber>" ++ toString (i + 1) ++ "</PartNumber><ETag>" ++ e i ++ "</ETag></Part>"))
      ++ "</CompleteMultipartUpload>" := by
  rw [recordAll_perm N e order h]
  unfold completeUploadInfo
  have := appendParts_eq e N 0 "<CompleteMultipartUpload>"
  rw [← List.range_eq_range'] at this
  rw [this]
  rfl

theorem completeUploadInfo_ascending_witness :
    [2, 0, 1].Perm (List.range 3) ∧
    completeUploadInfo (recordAll 3 ([2, 0, 1].map (fun i => (i, ["a", "b", "c"].getD i "")))) =
      "<CompleteMultipartUpload>" ++
      String.join ((List.range 3).map (fun i =>
        "<Part><PartNumber>" ++ toString (i + 1) ++ "</PartNumber><ETag>" ++
          ["a", "b", "c"].getD i "" ++ "</ETag></Part>"))
      ++ "</CompleteMultipartUpload>" :=
  ⟨by decide, completeUploadInfo_ascending 3 (fun i => ["a", "b", "c"].getD i "") [2, 0, 1] (by decide)⟩


/-! ### Skip decision -/

theorem syncIsSkipped_iff (options : Options) (sourceHead objectHead : HeadResult) :
    syncIsSkipped options sourceHead objectHead = true ↔
      (opt options "replace" ≠ "true" ∧ headSize sourceHead = headSize objectHead ∧
        headTime objectHead ≥ headTime sourceHead) := by
  unfold syncIsSkipped
  by_cases h1 : opt options "replace" = "true" <;>
  by_cases h2 : headSize sourceHead = headSize objectHead <;>
  by_cases h3 : headTime objectHead ≥ headTime sourceHead <;>
  simp [h1, h2, h3]

theorem uploadIsSkipped_iff (options : Options) (st : FileStat) (objectHead : HeadResult) :
    uploadIsSkipped options st objectHead = true ↔
      (opt options "replace" ≠ "true" ∧ st.size = headSize objectHead ∧
        headTime objectHead ≥ st.modTimeUnix) := by
  unfold uploadIsSkipped
  by_cases h1 : opt options "replace" = "true" <;>
  by_cases h2 : st.size = headSize objectHead <;>
  by_cases h3 : headTime objectHead ≥ st.modTimeUnix <;>
  simp [h1, h2, h3]

/-- Claim C5: in `SyncAllObject` and `UploadFromDir` an item is skipped if and only if the
`replace` option is not `"true"`, the source size equals the destination size, and the
destination time is at or after the source time (both in whole seconds); in every other case
the item is transferred.  A destination head that failed or lacks the headers counts as
size `0` and the zero time. -/
theorem skip_iff_sync_upload (options : Options) (sourceHead objectHead : HeadResult)
    (st : FileStat) :
    (syncAllObjectItem options sourceHead objectHead = .skipped ↔
      (opt options "replace" ≠ "true" ∧ headSize sourceHead = headSize objectHead ∧
        headTime objectHead ≥ headTime sourceHead)) ∧
    (syncAllObjectItem options sourceHead objectHead ≠ .skipped →
      syncAllObjectItem options sourceHead objectHead = .transfer) ∧
    (uploadFromDirItem options (some st) objectHead = .skipped ↔
      (opt options "replace" ≠ "true" ∧ st.size = headSize objectHead ∧
        headTime objectHead ≥ st.modTimeUnix)) ∧
    (uploadFromDirItem options (some st) objectHead ≠ .skipped →
      uploadFromDirItem options (some st) objectHead = .transfer) ∧
    (headSize nilHead = 0 ∧ headTime nilHead = zeroTimeUnix) ∧
    (∀ m, headSize ⟨none, m⟩ = 0) ∧ (∀ l, headTime ⟨l, none⟩ = zeroTimeUnix) := by
  have hs := syncIsSkipped_iff options sourceHead objectHead
  have hu := uploadIsSkipped_iff options st objectHead
  refine ⟨?_, ?_, ?_, ?_, ⟨rfl, rfl⟩, fun _ => rfl, fun _ => rfl⟩
  · rw [← hs]
    by_cases h : syncIsSkipped options sourceHead objectHead = true <;>
      simp [syncAllObjectItem, h]
  · by_cases h : syncIsSkipped options sourceHead objectHead = true <;>
      simp [syncAllObjectItem, h]
  · rw [← hu]
    by_cases h : uploadIsSkipped options st objectHead = true <;>
      simp [uploadFromDirItem, h]
  · by_cases h : uploadIsSkipped options st objectHead = true <;>
      simp [uploadFromDirItem, h]

/-- Claim C6 at a failing input: `CopyAllObject` (and `MoveAllObject`) with the option
`suffix = ".jpg"` and `replace` unset.  The object `photos/a.JPG` has size 10 and the
destination object size 5; its lower-cased key ends with `.jpg`, so the suffix option selects
it (`WalkDir` keeps such a name), yet the worker sets `isSkipped` on that match and the
object is skipped although the sizes differ. -/
theorem copyIsSkipped_size_mismatch :
    headSize ⟨some 10, some 200⟩ ≠ headSize ⟨some 5, some 100⟩ ∧
    copyIsSkipped asciiToLower [("suffix", ".jpg")] "photos/a.JPG"
      ⟨some 10, some 200⟩ ⟨some 5, some 100⟩ = true ∧
    walkDirAllowed asciiToLower ".jpg" "photos/a.JPG" = true ∧
    syncAllObjectItem [("suffix", ".jpg")] ⟨some 10, some 200⟩ ⟨some 5, some 100⟩ = .transfer := by
  decide

/-- Where the claim on a size mismatch holds: when the source size differs from the
destination size, the size and time comparison never skips.  The item is transferred by
`SyncAllObject`, `UploadFromDir` and `DownloadAllObject`, whatever the options and the times,
and `CopyAllObject` / `MoveAllObject` leave `isSkipped` as the suffix loop has set it. -/
theorem size_mismatch_not_skipped (toLower : String → String) (options : Options)
    (key : String) (sourceHead objectHead : HeadResult) (st : FileStat)
    (localHead : HeadResult) (fileStat : Option FileStat)
    (hsize : headSize sourceHead ≠ headSize objectHead)
    (hlocal : st.size ≠ headSize objectHead)
    (hdown : ∀ f, fileStat = some f → headSize localHead ≠ f.size)
    (hsuffix : suffixFilter toLower options key = false) :
    syncAllObjectItem options sourceHead objectHead = .transfer ∧
    uploadFromDirItem options (some st) objectHead = .transfer ∧
    downloadAllObjectItem options localHead fileStat = .transfer ∧
    copyIsSkipped toLower options key sourceHead objectHead = false := by
  refine ⟨?_, ?_, ?_, ?_⟩
  · have : syncIsSkipped options sourceHead objectHead = false := by
      unfold syncIsSkipped
      by_cases h1 : opt options "replace" = "true" <;> simp [h1, hsize]
    simp [syncAllObjectItem, this]
  · have : uploadIsSkipped options st objectHead = false := by
      unfold uploadIsSkipped
      by_cases h1 : opt options "replace" = "true" <;> simp [h1, hlocal]
    simp [uploadFromDirItem, this]
  · have : downloadIsSkipped options localHead fileStat = false := by
      unfold downloadIsSkipped
      cases fileStat with
      | none => by_cases h1 : opt options "replace" = "true" <;> simp [h1]
      | some f =>
        have := hdown f rfl
        by_cases h1 : opt options "replace" = "true" <;> simp [h1, this]
    simp [downloadAllObjectItem, this]
  · unfold copyIsSkipped
    by_cases h1 : opt options "replace" = "true" <;> simp [h1, hsize, hsuffix]

theorem size_mismatch_not_skipped_witness :
    syncAllObjectItem [("suffix", ".png")] ⟨some 10, some 100⟩ ⟨some 5, some 200⟩ = .transfer ∧
    uploadFromDirItem [("suffix", ".png")] (some ⟨10, 100⟩) ⟨some 5, some 200⟩ = .transfer ∧
    downloadAllObjectItem [("suffix", ".png")] ⟨some 10, some 100⟩ (some ⟨5, 50⟩) = .transfer ∧
    copyIsSkipped asciiToLower [("suffix", ".png")] "photos/a.JPG"
      ⟨some 10, some 100⟩ ⟨some 5, some 200⟩ = false :=
  size_mismatch_not_skipped asciiToLower [("suffix", ".png")] "photos/a.JPG"
    ⟨some 10, some 100⟩ ⟨some 5, some 200⟩ ⟨10, 100⟩ ⟨some 10, some 100⟩ (some ⟨5, 50⟩)
    (by decide) (by decide) (by decide) (by decide)

theorem downloadIsSkipped_iff (options : Options) (objectHead : HeadResult)
    (fileStat : Option FileStat) :
    downloadIsSkipped options objectHead fileStat = true ↔
      (opt options "replace" ≠ "true" ∧
        ∃ st, fileStat = some st ∧ headSize objectHead = st.size ∧
          headTime objectHead ≥ st.modTimeUnix) := by
  unfold downloadIsSkipped
  cases fileStat with
  | none => by_cases h1 : opt options "replace" = "true" <;> simp [h1]
  | some st =>
    by_cases h1 : opt options "replace" = "true" <;>
    by_cases h2 : headSize objectHead = st.size <;>
    by_cases h3 : headTime objectHead ≥ st.modTimeUnix <;>
    simp [h1, h2, h3]

/-- Claim C7 at failing inputs: with `replace` unset and a remote object of 10 bytes last
modified at second 200, `DownloadAllObject` skips an equal-sized local file modified at
second 100 (older than the remote object), and downloads again over an equal-sized local file
modified at second 300 (newer than the remote object). -/
theorem downloadIsSkipped_reversed :
    downloadAllObjectItem [] ⟨some 10, some 200⟩ (some ⟨10, 100⟩) = .skipped ∧
    downloadAllObjectItem [] ⟨some 10, some 200⟩ (some ⟨10, 300⟩) = .transfer := by
  decide


/-! ### Pagination -/

theorem walkPages_nonempty (batch : ListObjectResult → Option String)
    (init : List ListObjectResult) (pM : ListObjectResult) (marker : String)
    (hb : ∀ p ∈ init ++ [pM], batch p = none)
    (ht : ∀ p ∈ init, p.isTruncated = "true" ∧ p.contents ≠ [])
    (hM : pM.isTruncated ≠ "true") :
    walkPages batch (init ++ [pM]) marker
      = (marker :: init.map lastKey, .returned none) := by
  induction init generalizing marker with
  | nil =>
    have h := hb pM (by simp)
    simp [walkPages, h, hM]
  | cons p rest ih =>
    have hp := hb p (by simp)
    obtain ⟨htr, hne⟩ := ht p (by simp)
    obtain ⟨last, hlast⟩ : ∃ last, p.contents.getLast? = some last := by
      cases hc : p.contents.getLast? with
      | none => exact absurd (List.getLast?_eq_none_iff.mp hc) hne
      | some l => exact ⟨l, rfl⟩
    have ih2 := ih last.key (fun q hq => hb q (by simp at hq ⊢; tauto))
      (fun q hq => ht q (by simp [hq]))
    simp only [List.cons_append, walkPages, hp, htr, hlast, List.map_cons, lastKey]
    have ih3 : walkPages batch (rest.append [pM]) last.key
        = (last.key :: List.map lastKey rest, WalkEnd.returned none) := ih2
    rw [ih3]
    simp

/-- Claim C8 at a failing input: a first page that reports `IsTruncated = "true"` and holds no
entry.  The walkers issue the first request and then index `Contents[-1]`, which is out of
range: no second request is issued and the walk does not return.  `DeleteAllObject` keeps the
marker on such a page. -/
theorem walkPrefix_empty_truncated_page :
    walkPrefix (fun _ => none) [⟨"true", []⟩, ⟨"false", [⟨"a"⟩]⟩] = ([""], .indexOutOfRange) ∧
    deleteMarker "" [] = "" := by
  decide

/-! ### Retry loop and job outcome -/

theorem retryLoop_all_fail (uploadPart : Nat → Nat → PartResp) (partNum : Nat)
    (e : Nat → String) (left i : Nat) (v : JobVars)
    (h : ∀ j, i ≤ j → j < i + left → uploadPart (partNum + 1) j = .err (e j)) :
    retryLoop uploadPart partNum left i v =
      some { v with
        partErr := if left = 0 then v.partErr else some (e (i + left - 1)),
        requests := v.requests ++ (List.range' i left).map (fun j => (partNum + 1, j)) } := by
  induction left generalizing i v with
  | zero => simp [retryLoop]
  | succ n ih =>
    have h0 := h i (le_refl i) (by omega)
    simp only [retryLoop, h0]
    rw [ih (i + 1) _ (fun j hj1 hj2 => h j (by omega) (by omega))]
    by_cases hn : n = 0
    · subst hn; simp
    · have e1 : i + 1 + n - 1 = i + (n + 1) - 1 := by omega
      simp [hn, e1, List.range'_succ]

theorem retryLoop_success (uploadPart : Nat → Nat → PartResp) (partNum : Nat)
    (e : Nat → String) (etag : String) (k left i : Nat) (v : JobVars) (hk : k < left)
    (h : ∀ j, i ≤ j → j < i + k → uploadPart (partNum + 1) j = .err (e j))
    (hok : uploadPart (partNum + 1) (i + k) = .ok (some etag)) :
    retryLoop uploadPart partNum left i v =
      some { v with
        partErr := none,
        uploadPartList := v.uploadPartList.set partNum etag,
        requests := v.requests ++ (List.range' i (k + 1)).map (fun j => (partNum + 1, j)) } := by
  induction k generalizing i left v with
  | zero =>
    obtain ⟨n, rfl⟩ : ∃ n, left = n + 1 := ⟨left - 1, by omega⟩
    simp only [Nat.add_zero] at hok
    simp [retryLoop, hok, recordEtag]
  | succ k ih =>
    obtain ⟨n, rfl⟩ : ∃ n, left = n + 1 := ⟨left - 1, by omega⟩
    have h0 := h i (le_refl i) (by omega)
    simp only [retryLoop, h0]
    rw [ih n (i + 1) _ (by omega) (fun j hj1 hj2 => h j (by omega) (by omega))
      (by rw [← hok]; congr 1; omega)]
    simp [List.range'_succ]

/-- Claim C9: the retry loop of an `UploadLargeFile` part worker, with `R = maxRetryNum = 5`.
If the first `k < R` attempts of `UploadPart` fail and attempt `k+1` succeeds with an ETag,
the worker issues exactly `k+1` requests for its part, records that ETag at the part's index,
leaves `partErr` nil and does not set `uploadExit`; if all `R` attempts fail it issues
exactly `R` requests, leaves `partErr` at the last error and sets `uploadExit`. -/
theorem uploadWorker_retry (uploadPart : Nat → Nat → PartResp) (partNum : Nat) (v : JobVars)
    (e : Nat → String) :
    maxRetryNum = 5 ∧
    (∀ (k : Nat) (etag : String), k < maxRetryNum →
      (∀ i, i < k → uploadPart (partNum + 1) i = .err (e i)) →
      uploadPart (partNum + 1) k = .ok (some etag) →
      uploadWorker uploadPart partNum v = some
        { partErr := none, uploadExit := v.uploadExit,
          uploadPartList := v.uploadPartList.set partNum etag,
          requests := v.requests ++ (List.range (k + 1)).map (fun i => (partNum + 1, i)),
          progress := v.progress + 1 }) ∧
    ((∀ i, i < maxRetryNum → uploadPart (partNum + 1) i = .err (e i)) →
      uploadWorker uploadPart partNum v = some
        { partErr := some (e (maxRetryNum - 1)), uploadExit := true,
          uploadPartList := v.uploadPartList,
          requests := v.requests ++ (List.range maxRetryNum).map (fun i => (partNum + 1, i)),
          progress := v.progress }) := by
  refine ⟨rfl, ?_, ?_⟩
  · intro k etag hk hfail hok
    have := retryLoop_success uploadPart partNum e etag k maxRetryNum 0 v hk
      (fun j _ hj => hfail j (by omega)) (by simpa using hok)
    simp [uploadWorker, this, List.range_eq_range']
  · intro hfail
    have := retryLoop_all_fail uploadPart partNum e maxRetryNum 0 v
      (fun j _ hj => hfail j (by omega))
    unfold uploadWorker
    rw [this]
    simp [List.range_eq_range', maxRetryNum]

theorem uploadWorker_retry_witness :
    uploadWorker transientPart2 1 (initJob 3).vars = some
      { partErr := none, uploadExit := false, uploadPartList := ["", "etag2", ""],
        requests := [(2, 0), (2, 1), (2, 2)], progress := 1 } ∧
    runJob transientPart2 3 4 [.dispatch, .dispatch, .dispatch, .run 1, .run 0, .run 2] =
      some (.completed
        ("<CompleteMultipartUpload>" ++
         "<Part><PartNumber>1</PartNumber><ETag>etag1</ETag></Part>" ++
         "<Part><PartNumber>2</PartNumber><ETag>etag2</ETag></Part>" ++
         "<Part><PartNumber>3</PartNumber><ETag>etag3</ETag></Part>" ++
         "</CompleteMultipartUpload>")) :=
  ⟨(uploadWorker_retry transientPart2 1 (initJob 3).vars (fun _ => "timeout")).2.1 2 "etag2"
      (by decide) (by decide) (by decide),
   rfl⟩

/-- Claim C10 at a failing input: two parts, a pool of two slots, part 1 failing all five
attempts and part 2 succeeding after it.  Both workers are admitted; the worker of part 1
leaves `partErr` set, the worker of part 2 then sets it back to nil, and `UploadLargeFile`
posts a completion manifest with an empty ETag for part 1 instead of returning the error.
When the two workers end in the other order the error is returned. -/
theorem runJob_failure_erased :
    runJob part1Fails 2 2 [.dispatch, .dispatch, .run 0, .run 1] =
      some (.completed
        ("<CompleteMultipartUpload>" ++
         "<Part><PartNumber>1</PartNumber><ETag></ETag></Part>" ++
         "<Part><PartNumber>2</PartNumber><ETag>etag2</ETag></Part>" ++
         "</CompleteMultipartUpload>")) ∧
    runJob part1Fails 2 2 [.dispatch, .dispatch, .run 1, .run 0] =
      some (.failed "StatusCode: 500") := by
  decide

/-! ### Option parsing -/

theorem optionInRange_eq (dflt lo hi : Int) (value : String) :
    optionInRange dflt lo hi value =
      match atoi value with
      | some n => if lo ≤ n ∧ n ≤ hi then n else dflt
      | none => dflt := by
  unfold optionInRange
  by_cases hv : value = ""
  · subst hv
    have : atoi "" = none := by decide
    simp [this]
  · cases h : atoi value with
    | none => simp [hv]
    | some n =>
      by_cases h1 : n ≤ hi <;> by_cases h2 : lo ≤ n <;> simp [hv, h1, h2]

theorem optionInRange_bounds (dflt lo hi : Int) (value : String)
    (hd : lo ≤ dflt ∧ dflt ≤ hi) :
    lo ≤ optionInRange dflt lo hi value ∧ optionInRange dflt lo hi value ≤ hi := by
  rw [optionInRange_eq]
  cases atoi value with
  | none => exact hd
  | some n =>
    by_cases h : lo ≤ n ∧ n ≤ hi
    · simp only [h, and_self, if_true]
    · simp only [h, if_false]; exact hd

/-- Claim C14 fails as stated: the option text `"1"` parses as 1, below `partMinSize`, and
`UploadLargeFile` uses `partMaxSize` (100 MiB), not 1 MiB; the option text `"999999999"`
parses above `partMaxSize`, and `Get` uses `partMinSize` (1 MiB), not 100 MiB. -/
theorem partSize_not_clamped :
    atoi "1" = some 1 ∧ uploadPartSize [("part_size", "1")] = 104857600 ∧
    atoi "999999999" = some 999999999 ∧ getPartSize [("part_size", "999999999")] = 1048576 := by
  decide

/-- Claim C14 as amended: for every `part_size` option text that parses as an integer `n`,
the part size is `n` when `n` lies in `[partMinSize, partMaxSize] = [1048576, 104857600]`;
for `n` outside that interval it is the default of the operation, `partMaxSize` for
`UploadLargeFile`, `CopyLargeFile` and `SyncLargeFile` and `partMinSize` for `Get`. -/
theorem partSize_of_parsed (options : Options) (n : Int)
    (h : atoi (opt options "part_size") = some n) :
    partMinSize = 1048576 ∧ partMaxSize = 104857600 ∧
    (partMinSize ≤ n ∧ n ≤ partMaxSize → uploadPartSize options = n ∧ getPartSize options = n) ∧
    (n < partMinSize ∨ partMaxSize < n →
      uploadPartSize options = partMaxSize ∧ getPartSize options = partMinSize) := by
  refine ⟨rfl, rfl, ?_, ?_⟩
  · intro hr
    simp only [uploadPartSize, getPartSize, optionInRange_eq, h, hr, and_self, if_true]
  · intro hr
    have : ¬ (partMinSize ≤ n ∧ n ≤ partMaxSize) := by omega
    simp only [uploadPartSize, getPartSize, optionInRange_eq, h, this, if_false, and_self]

theorem partSize_of_parsed_witness :
    atoi (opt [("part_size", "5242880")] "part_size") = some 5242880 ∧
    uploadPartSize [("part_size", "5242880")] = 5242880 ∧
    getPartSize [("part_size", "5242880")] = 5242880 :=
  ⟨by decide,
   (partSize_of_parsed [("part_size", "5242880")] 5242880 (by decide)).2.2.1
     (by decide)⟩

/-- Claim C15: option parsing is permissive.  For every `part_size` and `thread_num` option
text the effective value is defined: it is the parsed integer `n` when the text parses and
`n` lies within the bounds, and otherwise the default (`partMaxSize` for `UploadLargeFile`,
`CopyLargeFile` and `SyncLargeFile`, `partMinSize` for `Get`, `threadMaxNum` for the thread
number); the effective part size lies in `[partMinSize, partMaxSize]` and the effective
thread number in `[threadMinNum, threadMaxNum]`. -/
theorem option_fallback (options : Options) :
    (uploadPartSize options =
      match atoi (opt options "part_size") with
      | some n => if partMinSize ≤ n ∧ n ≤ partMaxSize then n else partMaxSize
      | none => partMaxSize) ∧
    (getPartSize options =
      match atoi (opt options "part_size") with
      | some n => if partMinSize ≤ n ∧ n ≤ partMaxSize then n else partMinSize
      | none => partMinSize) ∧
    (optionThreadNum options =
      match atoi (opt options "thread_num") with
      | some n => if threadMinNum ≤ n ∧ n ≤ threadMaxNum then n else threadMaxNum
      | none => threadMaxNum) ∧
    (partMinSize ≤ uploadPartSize options ∧ uploadPartSize options ≤ partMaxSize) ∧
    (partMinSize ≤ getPartSize options ∧ getPartSize options ≤ partMaxSize) ∧
    (threadMinNum ≤ optionThreadNum options ∧ optionThreadNum options ≤ threadMaxNum) ∧
    (atoi "" = none ∧ atoi "abc" = none ∧ atoi "-5" = some (-5) ∧ atoi "0" = some 0) :=
  ⟨optionInRange_eq _ _ _ _, optionInRange_eq _ _ _ _, optionInRange_eq _ _ _ _,
   optionInRange_bounds _ _ _ _ (by decide), optionInRange_bounds _ _ _ _ (by decide),
   optionInRange_bounds _ _ _ _ (by decide), by decide⟩

/-- Claim C16: for every `thread_num` option text and every task count `N ≥ 1`, the capacity
`K` of the pool of `UploadLargeFile`, `CopyLargeFile`, `SyncLargeFile`, `UploadFromDir` and
`DeleteAllPart` satisfies `1 ≤ K ≤ N` and `threadMinNum ≤ K ≤ threadMaxNum`. -/
theorem poolCapacity_bounds (options : Options) (N : Int) (hN : 1 ≤ N) :
    (1 ≤ poolCapacity options N ∧ poolCapacity options N ≤ N) ∧
    (threadMinNum ≤ poolCapacity options N ∧ poolCapacity options N ≤ threadMaxNum) := by
  have hb : threadMinNum ≤ optionThreadNum options ∧ optionThreadNum options ≤ threadMaxNum :=
    optionInRange_bounds _ _ _ _ (by decide)
  have h1 : threadMinNum = 1 := rfl
  unfold poolCapacity
  simp only
  split <;> omega

theorem poolCapacity_bounds_witness :
    poolCapacity [("thread_num", "8")] 3 = 3 ∧
    ((1 ≤ poolCapacity [("thread_num", "8")] 3 ∧ poolCapacity [("thread_num", "8")] 3 ≤ 3) ∧
    (threadMinNum ≤ poolCapacity [("thread_num", "8")] 3 ∧
      poolCapacity [("thread_num", "8")] 3 ≤ threadMaxNum)) :=
  ⟨by decide, poolCapacity_bounds [("thread_num", "8")] 3 (by decide)⟩

/-! ### Exhausted retries in the three dialects -/

theorem cephUploadLoop_all_fail (attempt : Nat → CephUploadAttempt) (partNum : Nat)
    (left i : Nat) (l : List String)
    (h : ∀ j, i ≤ j → j < i + left →
      (attempt j).readFails = true ∨ (attempt j).uploadPart = none) :
    cephUploadLoop attempt partNum left i l = (false, l) := by
  induction left generalizing i with
  | zero => rfl
  | succ n ih =>
    have ih2 := ih (i + 1) (fun j h1 h2 => h j (by omega) (by omega))
    rcases h i (le_refl i) (by omega) with h0 | h0
    · simp [cephUploadLoop, h0, ih2]
    · by_cases hr : (attempt i).readFails = true
      · simp [cephUploadLoop, hr, ih2]
      · simp [cephUploadLoop, hr, h0, ih2]

theorem cephGetLoop_all_fail (attempt : Nat → CephCatAttempt) (left i : Nat)
    (h : ∀ j, i ≤ j → j < i + left → catFails (attempt j) = true) :
    cephGetLoop attempt left i = false := by
  induction left generalizing i with
  | zero => rfl
  | succ n ih =>
    have ih2 := ih (i + 1) (fun j h1 h2 => h j (by omega) (by omega))
    have h0 := h i (le_refl i) (by omega)
    cases ha : attempt i with
    | catError => simp [cephGetLoop, ha, ih2]
    | response statusCode writeFails =>
      rw [ha] at h0
      simp only [catFails, Bool.or_eq_true] at h0
      rcases h0 with h0 | h0
      · simp [cephGetLoop, ha, h0, ih2]
      · by_cases hs : (statusCode != "200" && statusCode != "206") = true
        · simp [cephGetLoop, ha, hs, ih2]
        · simp [cephGetLoop, ha, hs, h0, ih2]

theorem ossDeleteLoop_all_fail (cancelPart : Nat → Option String) (left i f : Nat)
    (h : ∀ j, i ≤ j → j < i + left → cancelPart j = none) :
    ossDeleteLoop cancelPart left i f = (false, f) := by
  induction left generalizing i with
  | zero => rfl
  | succ n ih =>
    have ih2 := ih (i + 1) (fun j h1 h2 => h j (by omega) (by omega))
    simp [ossDeleteLoop, h i (le_refl i) (by omega), ih2]

/-- Claim C11 fails as stated: a `ceph/s3` `UploadLargeFile` worker whose five attempts all
fail ends the process with `os.Exit(0)`; it does not hand an error to the caller. -/
theorem cephUploadWorker_exits :
    cephUploadWorker cephMaxRetryNum (fun _ => ⟨false, none⟩) 0 ["", ""] = .processExit 0 := by
  decide

/-- Claim C11 as amended: when a part exhausts its retries, the `aws/s3v2` worker of
`UploadLargeFile` ends with the last error in `partErr`, without ending the process, and
`UploadLargeFile` returns that error to its caller when `partErr` still holds it at the join;
in `ceph/s3` (`UploadLargeFile`, `Get`) and `aliyun/oss` (`DeleteAllPart`) the worker ends
the whole process with `os.Exit(0)`. -/
theorem exhausted_retries_outcome (uploadPart : Nat → Nat → PartResp) (partNum total : Nat)
    (v : JobVars) (e : Nat → String)
    (cephAttempt : Nat → CephUploadAttempt) (l : List String)
    (catAttempt : Nat → CephCatAttempt)
    (R : Nat) (cancelPart : Nat → Option String) (f : Nat)
    (hs3 : ∀ i, i < maxRetryNum → uploadPart (partNum + 1) i = .err (e i))
    (hceph : ∀ i, i < cephMaxRetryNum →
      (cephAttempt i).readFails = true ∨ (cephAttempt i).uploadPart = none)
    (hget : ∀ i, i < cephMaxRetryNum → catFails (catAttempt i) = true)
    (hoss : ∀ i, i < R → cancelPart i = none) :
    (∃ v', uploadWorker uploadPart partNum v = some v' ∧
      v'.partErr = some (e (maxRetryNum - 1)) ∧
      finishJob total { partNum := total, loopBroken := false, running := [], vars := v' }
        = some (.failed (e (maxRetryNum - 1)))) ∧
    cephUploadWorker cephMaxRetryNum cephAttempt partNum l = .processExit 0 ∧
    cephGetWorker cephMaxRetryNum catAttempt = .processExit 0 ∧
    ossDeleteWorker R cancelPart f = .processExit 0 := by
  refine ⟨?_, ?_, ?_, ?_⟩
  · have := retryLoop_all_fail uploadPart partNum e maxRetryNum 0 v
      (fun j _ hj => hs3 j (by omega))
    refine ⟨_, by unfold uploadWorker; rw [this], ?_, ?_⟩
    · simp [maxRetryNum]
    · simp [finishJob, maxRetryNum]
  · have := cephUploadLoop_all_fail cephAttempt partNum cephMaxRetryNum 0 l
      (fun j _ hj => hceph j (by omega))
    simp [cephUploadWorker, this]
  · have := cephGetLoop_all_fail catAttempt cephMaxRetryNum 0
      (fun j _ hj => hget j (by omega))
    simp [cephGetWorker, this]
  · have := ossDeleteLoop_all_fail cancelPart R 0 f (fun j _ hj => hoss j (by omega))
    simp [ossDeleteWorker, this]

theorem exhausted_retries_outcome_witness :
    (∃ v', uploadWorker part1Fails 0 (initJob 2).vars = some v' ∧
      v'.partErr = some "StatusCode: 500" ∧
      finishJob 2 { partNum := 2, loopBroken := false, running := [], vars := v' }
        = some (.failed "StatusCode: 500")) ∧
    cephUploadWorker cephMaxRetryNum (fun _ => ⟨true, some "etag"⟩) 0 ["", ""] = .processExit 0 ∧
    cephGetWorker cephMaxRetryNum (fun _ => .response "500" false) = .processExit 0 ∧
    ossDeleteWorker 5 (fun _ => none) 0 = .processExit 0 :=
  exhausted_retries_outcome part1Fails 0 2 (initJob 2).vars (fun _ => "StatusCode: 500")
    (fun _ => ⟨true, some "etag"⟩) ["", ""] (fun _ => .response "500" false) 5 (fun _ => none) 0
    (by decide) (by decide) (by decide) (by decide)

/-! ### Admission loop: invariants -/

theorem poolStep_vars_invariant {σ : Type} (ops : PoolOps σ) (I : σ → Prop)
    (hw : ∀ p v v' r, I v → ops.worker p v = some (v', r) → I v')
    (total cap : Nat) (s s' : PoolState σ) (e : Event)
    (hI : I s.vars) (h : poolStep ops total cap s e = some s') : I s'.vars := by
  cases e with
  | dispatch =>
    simp only [poolStep] at h
    split at h
    · exact absurd h (by simp)
    · split at h
      · cases h; exact hI
      · split at h
        · cases h; exact hI
        · exact absurd h (by simp)
  | run p =>
    simp only [poolStep] at h
    split at h
    · split at h
      · exact absurd h (by simp)
      · next v r hwk =>
        cases h
        exact hw p s.vars v r hI hwk
    · exact absurd h (by simp)

theorem poolRun_vars_invariant {σ : Type} (ops : PoolOps σ) (I : σ → Prop)
    (hw : ∀ p v v' r, I v → ops.worker p v = some (v', r) → I v')
    (total cap : Nat) (events : List Event) (s s' : PoolState σ)
    (hI : I s.vars) (h : poolRun ops total cap events s = some s') : I s'.vars := by
  induction events generalizing s with
  | nil => simp only [poolRun] at h; cases h; exact hI
  | cons e es ih =>
    simp only [poolRun] at h
    split at h
    · exact absurd h (by simp)
    · next s1 hs1 =>
      exact ih s1 (poolStep_vars_invariant ops I hw total cap s s1 e hI hs1) h

theorem poolStep_bound {σ : Type} (ops : PoolOps σ) (total cap : Nat)
    (s s' : PoolState σ) (e : Event)
    (hI : s.running.length ≤ s.held ∧ s.held ≤ cap)
    (h : poolStep ops total cap s e = some s') :
    s'.running.length ≤ s'.held ∧ s'.held ≤ cap := by
  cases e with
  | dispatch =>
    simp only [poolStep] at h
    split at h
    · exact absurd h (by simp)
    · split at h
      · cases h; exact hI
      · split at h
        · next hlt =>
          cases h
          simp only [List.length_append, List.length_singleton]
          omega
        · exact absurd h (by simp)
  | run p =>
    simp only [poolStep] at h
    split at h
    · next hmem =>
      have hp : p ∈ s.running := by simpa using hmem
      have hpos : 0 < s.running.length := List.length_pos_of_mem hp
      split at h
      · exact absurd h (by simp)
      · next v r hwk =>
        cases h
        simp only [List.length_erase_of_mem hp]
        split <;> omega
    · exact absurd h (by simp)

theorem poolRun_bound {σ : Type} (ops : PoolOps σ) (total cap : Nat)
    (events : List Event) (s s' : PoolState σ)
    (hI : s.running.length ≤ s.held ∧ s.held ≤ cap)
    (h : poolRun ops total cap events s = some s') :
    s'.running.length ≤ s'.held ∧ s'.held ≤ cap := by
  induction events generalizing s with
  | nil => simp only [poolRun] at h; cases h; exact hI
  | cons e es ih =>
    simp only [poolRun] at h
    split at h
    · exact absurd h (by simp)
    · next s1 hs1 => exact ih s1 (poolStep_bound ops total cap s s1 e hI hs1) h

theorem poolSize_le (total threadNum : Nat) : poolSize total threadNum ≤ threadNum := by
  unfold poolSize
  split <;> omega

theorem step_bound (uploadPart : Nat → Nat → PartResp) (total threadNum : Nat)
    (s s' : JobState) (e : Event)
    (hI : s.running.length ≤ poolSize total threadNum)
    (h : step uploadPart total threadNum s e = some s') :
    s'.running.length ≤ poolSize total threadNum := by
  cases e with
  | dispatch =>
    simp only [step] at h
    split at h
    · exact absurd h (by simp)
    · split at h
      · cases h; exact hI
      · split at h
        · next hlt =>
          cases h
          simp only [List.length_append, List.length_singleton]
          omega
        · exact absurd h (by simp)
  | run p =>
    simp only [step] at h
    split at h
    · split at h
      · exact absurd h (by simp)
      · cases h
        exact le_trans (List.length_erase_le p s.running) hI
    · exact absurd h (by simp)

theorem runEvents_bound (uploadPart : Nat → Nat → PartResp) (total threadNum : Nat)
    (events : List Event) (s s' : JobState)
    (hI : s.running.length ≤ poolSize total threadNum)
    (h : runEvents uploadPart total threadNum events s = some s') :
    s'.running.length ≤ poolSize total threadNum := by
  induction events generalizing s with
  | nil => simp only [runEvents] at h; cases h; exact hI
  | cons e es ih =>
    simp only [runEvents] at h
    split at h
    · exact absurd h (by simp)
    · next s1 hs1 => exact ih s1 (step_bound uploadPart total threadNum s s1 e hI hs1) h

/-- Claim C18: for every pool capacity `K ≥ 1` and task count `N`, in every state the
admission loop reaches (a value is put into the buffered channel before a worker starts and
taken out when the worker ends, if at all), the number of workers in flight is at most `K`:
for the loop of any operation with any worker, and for `UploadLargeFile`, whose capacity is
the smaller of `K` and `N`. -/
theorem in_flight_bounded {σ : Type} (ops : PoolOps σ) (vars : σ)
    (uploadPart : Nat → Nat → PartResp) (N K : Nat) (hK : 1 ≤ K) (events : List Event) :
    (∀ s, poolRun ops N K events (poolInit vars) = some s →
      s.running.length ≤ s.held ∧ s.held ≤ K) ∧
    (∀ s, runEvents uploadPart N K events (initJob N) = some s → s.running.length ≤ K) := by
  have _ := hK
  constructor
  · intro s h
    exact poolRun_bound ops N K events (poolInit vars) s (by simp [poolInit]) h
  · intro s h
    exact le_trans
      (runEvents_bound uploadPart N K events (initJob N) s (by simp [initJob]) h)
      (poolSize_le N K)

theorem in_flight_bounded_witness :
    (∃ s, poolRun (copyOps (fun _ _ => .ok "etag") (fun _ _ => false)) 3 2
        [.dispatch, .dispatch, .run 1] (poolInit (initJob 3).vars) = some s ∧
      s.running = [0] ∧ s.held = 1) ∧
    ((∀ s, poolRun (copyOps (fun _ _ => .ok "etag") (fun _ _ => false)) 3 2
        [.dispatch, .dispatch, .run 1] (poolInit (initJob 3).vars) = some s →
      s.running.length ≤ s.held ∧ s.held ≤ 2) ∧
    (∀ s, runEvents transientPart2 3 2 [.dispatch, .dispatch, .run 1] (initJob 3) = some s →
      s.running.length ≤ 2)) :=
  ⟨⟨_, rfl, rfl, rfl⟩,
   in_flight_bounded (copyOps (fun _ _ => .ok "etag") (fun _ _ => false)) (initJob 3).vars
     transientPart2 3 2 (by decide) [.dispatch, .dispatch, .run 1]⟩

/-! ### Statistics and progress notifications of `UploadFromDir` -/

theorem putLoop_counters (put : Nat → Option String) (left i : Nat) (v : DirVars) :
    (putLoop put left i v).tmpSkip = v.tmpSkip ∧ (putLoop put left i v).tmpFinish = v.tmpFinish ∧
    (putLoop put left i v).progress = v.progress := by
  induction left generalizing i v with
  | zero => simp [putLoop]
  | succ n ih =>
    simp only [putLoop]
    split
    · exact ih _ _
    · simp

theorem dirDeferred_counters (v : DirVars) :
    (dirDeferred v).tmpSkip = v.tmpSkip ∧ (dirDeferred v).tmpFinish = v.tmpFinish ∧
    (dirDeferred v).progress = v.progress := by
  unfold dirDeferred
  split <;> simp

theorem dirWorker_progress (item : DirItem) (v : DirVars)
    (h : v.progress = v.tmpSkip + v.tmpFinish) :
    (dirWorker item v).progress = (dirWorker item v).tmpSkip + (dirWorker item v).tmpFinish := by
  unfold dirWorker
  split
  · obtain ⟨a, b, c⟩ := dirDeferred_counters { v with fileErr := some "Stat localFile" }
    rw [a, b, c]; exact h
  · obtain ⟨a, b, c⟩ :=
      dirDeferred_counters { v with tmpSkip := v.tmpSkip + 1, progress := v.progress + 1 }
    rw [a, b, c]; simp only; omega
  · split
    · next e _ =>
      obtain ⟨a, b, c⟩ := dirDeferred_counters { v with fileErr := some e }
      rw [a, b, c]; exact h
    · obtain ⟨pa, pb, pc⟩ := putLoop_counters item.put maxRetryNum 0 v
      simp only
      split
      · obtain ⟨a, b, c⟩ := dirDeferred_counters (putLoop item.put maxRetryNum 0 v)
        rw [a, b, c, pa, pb, pc]; exact h
      · obtain ⟨a, b, c⟩ := dirDeferred_counters
          { putLoop item.put maxRetryNum 0 v with
            tmpSize := (putLoop item.put maxRetryNum 0 v).tmpSize + item.size,
            tmpFinish := (putLoop item.put maxRetryNum 0 v).tmpFinish + 1,
            progress := (putLoop item.put maxRetryNum 0 v).progress + 1 }
        rw [a, b, c]; simp only; omega

/-- Claim C12 at a failing input: two files, a pool of two slots; every `c.Put` of the first
file fails, the second file is uploaded after it.  The worker of the second file sets
`fileErr` back to nil, and `UploadFromDir` returns without error the statistics
`Total = 2`, `Skip = 0`, `Finish = 1`: the first file is counted neither as skipped nor as
finished. -/
theorem runUploadFromDir_drops_failed_item :
    runUploadFromDir [badFile, goodFile] 2 [.dispatch, .dispatch, .run 0, .run 1]
      = some (.stats 2 0 1 3, 1) := by
  decide

/-- The scenario of the specification on `UploadFromDir`: ten files of which one is skipped
and nine are uploaded give `Total = 10`, `Skip = 1`, `Finish = 9`. -/
theorem runUploadFromDir_ten_files :
    runUploadFromDir
      [goodFile, goodFile, goodFile, skippedFile, goodFile, goodFile, goodFile, goodFile,
        goodFile, goodFile] 1
      [.dispatch, .run 0, .dispatch, .run 1, .dispatch, .run 2, .dispatch, .run 3,
        .dispatch, .run 4, .dispatch, .run 5, .dispatch, .run 6, .dispatch, .run 7,
        .dispatch, .run 8, .dispatch, .run 9]
      = some (.stats 10 1 9 27, 10) := by
  rfl

/-- Claim C13 fails as stated: `UploadFromDir` on one file that is skipped returns
`Finish = 0` and has sent one value on the progress channel. -/
theorem runUploadFromDir_progress_on_skip :
    runUploadFromDir [skippedFile] 1 [.dispatch, .run 0] = some (.stats 1 1 0 0, 1) := by
  decide

/-- Claim C13 as amended: for every run of `UploadFromDir` that returns without error, the
number of values sent on the progress channel is `Skip + Finish`: one notification for each
item that was skipped and one for each item that was transferred. -/
theorem progress_eq_skip_add_finish (items : List DirItem) (threadNum : Nat)
    (schedule : List Event) (total skip finish size progress : Nat)
    (h : runUploadFromDir items threadNum schedule
      = some (.stats total skip finish size, progress)) :
    progress = skip + finish := by
  unfold runUploadFromDir at h
  split at h
  · exact absurd h (by simp)
  · next s hs =>
    have hinv : s.vars.progress = s.vars.tmpSkip + s.vars.tmpFinish := by
      refine poolRun_vars_invariant (dirOps items)
        (fun v => v.progress = v.tmpSkip + v.tmpFinish) ?_ _ _ schedule
        (poolInit initDirVars) s (by simp [poolInit, initDirVars]) hs
      intro p v v' r hv hw
      simp only [dirOps] at hw
      split at hw
      · next item _ =>
        cases hw
        exact dirWorker_progress item v hv
      · exact absurd hw (by simp)
    split at h
    · split at h
      · simp at h
      · simp only [Option.some.injEq, Prod.mk.injEq, DirOutcome.stats.injEq] at h
        obtain ⟨⟨_, h2, h3, _⟩, h5⟩ := h
        omega
    · exact absurd h (by simp)

theorem progress_eq_skip_add_finish_witness :
    runUploadFromDir [skippedFile, goodFile] 2 [.dispatch, .dispatch, .run 1, .run 0]
      = some (.stats 2 1 1 3, 2) ∧ 2 = 1 + 1 :=
  ⟨by decide,
   progress_eq_skip_add_finish [skippedFile, goodFile] 2 [.dispatch, .dispatch, .run 1, .run 0]
     2 1 1 3 2 (by decide)⟩

/-! ### Cancellation in `CopyLargeFile` -/

theorem copyRetryLoop_cancel (copyPart : Nat → Nat → Except String String)
    (copyCancel : Nat → Nat → Bool) (partNum : Nat) (e : Nat → String)
    (k left i : Nat) (v : JobVars) (hk : k < left)
    (hprev : ∀ j, i ≤ j → j < i + k →
      copyCancel partNum j = false ∧ copyPart (partNum + 1) j = .error (e j))
    (hc : copyCancel partNum (i + k) = true) :
    copyRetryLoop copyPart copyCancel partNum left i v =
      { v with
        partErr := some "canceled",
        requests := v.requests ++ (List.range' i k).map (fun j => (partNum + 1, j)) } := by
  induction k generalizing i left v with
  | zero =>
    obtain ⟨n, rfl⟩ : ∃ n, left = n + 1 := ⟨left - 1, by omega⟩
    simp only [Nat.add_zero] at hc
    simp [copyRetryLoop, hc]
  | succ k ih =>
    obtain ⟨n, rfl⟩ : ∃ n, left = n + 1 := ⟨left - 1, by omega⟩
    obtain ⟨h0, h1⟩ := hprev i (le_refl i) (by omega)
    simp only [copyRetryLoop, h0, h1]
    rw [ih n (i + 1) _ (by omega) (fun j hj1 hj2 => hprev j (by omega) (by omega))
      (by rw [← hc]; congr 1; omega)]
    simp [List.range'_succ]

/-- Claim C17: in `CopyLargeFile` the flag `copyCancel` is read before each attempt of each
part.  For every part and every attempt index `i < R` that the worker reaches (the earlier
attempts were not cancelled and failed): if the flag is set when attempt `i` is about to
start, the `CopyPart` requests of the part are those of attempts `0 .. i-1` only, none is
issued for attempt `i` or later, and the worker ends with the error `"canceled"`. -/
theorem copy_cancel_before_attempt (copyPart : Nat → Nat → Except String String)
    (copyCancel : Nat → Nat → Bool) (partNum : Nat) (e : Nat → String) (v : JobVars)
    (i : Nat) (hi : i < maxRetryNum)
    (hprev : ∀ j, j < i →
      copyCancel partNum j = false ∧ copyPart (partNum + 1) j = .error (e j))
    (hc : copyCancel partNum i = true) :
    copyRetryLoop copyPart copyCancel partNum maxRetryNum 0 v =
      { v with
        partErr := some "canceled",
        requests := v.requests ++ (List.range i).map (fun j => (partNum + 1, j)) } ∧
    copyWorker copyPart copyCancel partNum v =
      ({ v with
          partErr := some "canceled", uploadExit := true,
          requests := v.requests ++ (List.range i).map (fun j => (partNum + 1, j)) }, false) := by
  have h := copyRetryLoop_cancel copyPart copyCancel partNum e i maxRetryNum 0 v hi
    (fun j _ hj => hprev j (by omega)) (by simpa using hc)
  rw [← List.range_eq_range'] at h
  refine ⟨h, ?_⟩
  unfold copyWorker
  rw [h]
  simp

theorem copy_cancel_before_attempt_witness :
    copyWorker (fun _ _ => .error "timeout") (fun _ i => decide (2 ≤ i)) 0 (initJob 1).vars =
      ({ (initJob 1).vars with
          partErr := some "canceled", uploadExit := true,
          requests := [(1, 0), (1, 1)] }, false) :=
  (copy_cancel_before_attempt (fun _ _ => .error "timeout") (fun _ i => decide (2 ≤ i)) 0
    (fun _ => "timeout") (initJob 1).vars 2 (by decide)
    (fun j hj => ⟨by simpa using hj, rfl⟩) (by decide)).2

/-! ### Request signing -/

theorem charsLe_total (a b : List Char) : charsLe a b = true ∨ charsLe b a = true := by
  induction a generalizing b with
  | nil => left; rfl
  | cons x xs ih =>
    cases b with
    | nil => right; rfl
    | cons y ys =>
      simp only [charsLe]
      rcases Nat.lt_trichotomy x.toNat y.toNat with h | h | h
      · left; simp [h]
      · have h1 : ¬ x.toNat < y.toNat := by omega
        have h2 : ¬ y.toNat < x.toNat := by omega
        simp only [h1, h2, if_false]
        exact ih ys
      · right; simp [h]

theorem charsLe_trans (a b c : List Char) (h1 : charsLe a b = true) (h2 : charsLe b c = true) :
    charsLe a c = true := by
  induction a generalizing b c with
  | nil => rfl
  | cons x xs ih =>
    cases b with
    | nil => simp [charsLe] at h1
    | cons y ys =>
      cases c with
      | nil => simp [charsLe] at h2
      | cons z zs =>
        simp only [charsLe] at h1 h2 ⊢
        by_cases hxy : x.toNat < y.toNat
        · by_cases hyz : y.toNat < z.toNat
          · have : x.toNat < z.toNat := by omega
            simp [this]
          · by_cases hzy : z.toNat < y.toNat
            · simp [hyz, hzy] at h2
            · have : x.toNat < z.toNat := by omega
              simp [this]
        · by_cases hyx : y.toNat < x.toNat
          · simp [hxy, hyx] at h1
          · simp only [hxy, hyx, if_false] at h1
            by_cases hyz : y.toNat < z.toNat
            · have : x.toNat < z.toNat := by omega
              simp [this]
            · by_cases hzy : z.toNat < y.toNat
              · simp [hyz, hzy] at h2
              · simp only [hyz, hzy, if_false] at h2
                have e1 : ¬ x.toNat < z.toNat := by omega
                have e2 : ¬ z.toNat < x.toNat := by omega
                simp only [e1, e2, if_false]
                exact ih ys zs h1 h2

theorem charsLe_antisymm (a b : List Char) (h1 : charsLe a b = true) (h2 : charsLe b a = true) :
    a = b := by
  induction a generalizing b with
  | nil =>
    cases b with
    | nil => rfl
    | cons y ys => simp [charsLe] at h2
  | cons x xs ih =>
    cases b with
    | nil => simp [charsLe] at h1
    | cons y ys =>
      simp only [charsLe] at h1 h2
      by_cases hxy : x.toNat < y.toNat
      · have : ¬ y.toNat < x.toNat := by omega
        simp [hxy, this] at h2
      · by_cases hyx : y.toNat < x.toNat
        · simp [hxy, hyx] at h1
        · simp only [hxy, hyx, if_false] at h1 h2
          have hc : x = y := by
            apply Char.ext
            apply UInt32.ext
            show x.toNat = y.toNat
            omega
          rw [hc, ih ys h1 h2]

theorem sortStrings_sorted (keys : List String) :
    List.Sorted (fun a b => strLe a b = true) (sortStrings keys) :=
  @List.sorted_insertionSort String (fun a b => strLe a b = true) _
    ⟨fun a b => charsLe_total a.data b.data⟩
    ⟨fun a b c => charsLe_trans a.data b.data c.data⟩ keys

theorem sortStrings_perm (keys : List String) : (sortStrings keys).Perm keys :=
  List.perm_insertionSort _ keys

theorem containsChars_iff (s sub : List Char) : containsChars s sub = true ↔ sub <:+: s := by
  induction s with
  | nil =>
    simp [containsChars, List.isEmpty_iff]
  | cons c cs ih =>
    simp only [containsChars, Bool.or_eq_true, ih, List.isPrefixOf_iff_prefix]
    constructor
    · rintro (h | h)
      · exact h.isInfix
      · exact h.trans (List.suffix_cons c cs).isInfix
    · intro h
      rcases List.infix_cons_iff.mp h with h | h
      · left; exact h
      · right; exact h

theorem signLines_eq (headers : Options) (keys : List String) (sign : String) :
    S3v2.signLines headers keys sign = sign ++ String.join (keys.map (fun name =>
      if strContains name "x-amz-" then name ++ ":" ++ opt headers name ++ "\n"
      else opt headers name ++ "\n")) := by
  induction keys generalizing sign with
  | nil => simp [S3v2.signLines, String.join]
  | cons k rest ih =>
    simp only [S3v2.signLines, List.map_cons, join_cons]
    split
    · rw [ih]; simp [String.append_assoc]
    · rw [ih]; simp [String.append_assoc]

/-- Claim C19: for every method string, header map, bucket and object, the legacy signer of
`aws/s3v2` (and of `ceph/s3`) returns
`"AWS " + accessKeyID + ":" + base64(HMAC-SHA1(secret, m + "\n" + C + "/" + b + r))`, where `C`
is the concatenation, over the header names in ascending order, of `name + ":" + value + "\n"`
for a name containing `"x-amz-"` and of `value + "\n"` for any other name, and `r` is
`"/" + o` when the object `o` is not empty and empty otherwise. -/
theorem S3v2_sign_eq {Mac : Type} (cr : LegacyCrypto Mac) (accessKeyID accessKeySecret : String)
    (m : String) (H : Options) (b o : String) :
    S3v2.sign cr accessKeyID accessKeySecret m H b o =
      "AWS " ++ accessKeyID ++ ":" ++ cr.base64 (cr.hmacSha1 accessKeySecret
        (m ++ "\n" ++
          String.join ((sortStrings (headerKeys H)).map (fun name =>
            if strContains name "x-amz-" then name ++ ":" ++ opt H name ++ "\n"
            else opt H name ++ "\n"))
          ++ "/" ++ b ++ (if o = "" then "" else "/" ++ o))) ∧
    List.Sorted (fun x y => strLe x y = true) (sortStrings (headerKeys H)) ∧
    (sortStrings (headerKeys H)).Perm (headerKeys H) ∧
    (∀ name : String, strContains name "x-amz-" = true ↔ "x-amz-".data <:+: name.data) := by
  refine ⟨?_, sortStrings_sorted _, sortStrings_perm _, fun name => containsChars_iff _ _⟩
  unfold S3v2.sign
  simp only [signLines_eq]
  congr 3
  by_cases hb : b = "" <;> by_cases ho : o = "" <;>
    simp only [hb, ho, bne_self_eq_false, Bool.false_eq_true, if_false, if_true, bne_iff_ne,
      ne_eq, not_false_eq_true, not_true_eq_false] <;>
    apply String.ext <;> simp

theorem canonLines_eq (toLower : String → String) (headers : Options) (keys : List String)
    (acc : String) :
    S3v4.canonLines toLower headers keys acc = acc ++ String.join (keys.map (fun name =>
      toLower name ++ ":" ++ opt headers name ++ "\n")) := by
  induction keys generalizing acc with
  | nil => simp [S3v4.canonLines, String.join]
  | cons k rest ih =>
    simp only [S3v4.canonLines, List.map_cons, join_cons]
    rw [ih]; simp [String.append_assoc]

/-- Claim C20: for every method, header map, uri and canonical query, the `aws/s3v4`
`canonicalRequest` is the six fields joined by `"\n"` in this order: the method; the uri; the
query; the canonical headers block, which has one line `name:value\n` per header, the name
lower-cased, in the order of the sorted names; the names joined by `";"`; and the value of
the header `x-amz-content-sha256`. -/
theorem canonicalRequest_eq (toLower : String → String) (method : String) (H : Options)
    (uri q : String) :
    S3v4.canonicalRequest toLower method H uri q =
      method ++ "\n" ++ uri ++ "\n" ++ q ++ "\n" ++ S3v4.canonicalHeaders toLower H ++ "\n" ++
        S3v4.canonicalSignHeaders H ++ "\n" ++ opt H "x-amz-content-sha256" ∧
    S3v4.canonicalHeaders toLower H =
      String.join ((sortStrings (headerKeys H)).map (fun name =>
        toLower name ++ ":" ++ opt H name ++ "\n")) ∧
    ((sortStrings (headerKeys H)).map (fun name =>
        toLower name ++ ":" ++ opt H name ++ "\n")).length = H.length ∧
    S3v4.canonicalSignHeaders H = ";".intercalate (sortStrings (headerKeys H)) := by
  refine ⟨rfl, ?_, ?_, rfl⟩
  · unfold S3v4.canonicalHeaders
    simp only [canonLines_eq]
    apply String.ext
    simp
  · rw [List.length_map, (sortStrings_perm _).length_eq]
    simp [headerKeys]

theorem sign_examples :
    sortStrings ["x-amz-acl", "Date", "Content-Type"] = ["Content-Type", "Date", "x-amz-acl"] ∧
    S3v4.canonicalRequest asciiToLower "GET"
      [("x-amz-date", "20240101T000000Z"), ("Host", "s3.us-east-1.example.com"),
       ("x-amz-content-sha256", "abc")] "/k" "" =
      "GET\n/k\n\nhost:s3.us-east-1.example.com\nx-amz-content-sha256:abc\n" ++
      "x-amz-date:20240101T000000Z\n\nHost;x-amz-content-sha256;x-amz-date\nabc" := by
  constructor
  · decide
  · rfl

/-! ### The canonical-request signer -/

theorem splitChars_append (sep : Char) (a b : List Char) (h : sep ∉ a) :
    splitChars sep (a ++ sep :: b) = a :: splitChars sep b := by
  induction a with
  | nil => simp [splitChars]
  | cons c cs ih =>
    have hc : c ≠ sep := fun e => h (by simp [e])
    have hcs : sep ∉ cs := fun e => h (by simp [e])
    simp [splitChars, hc, ih hcs]

theorem hostInfo_of_form (service region rest : String)
    (hs : '.' ∉ service.data) (hr : '.' ∉ region.data) :
    (S3v4.hostInfo (service ++ "." ++ region ++ "." ++ rest))[0]? = some service ∧
    (S3v4.hostInfo (service ++ "." ++ region ++ "." ++ rest))[1]? = some region := by
  have e : (service ++ "." ++ region ++ "." ++ rest).data
      = service.data ++ '.' :: (region.data ++ '.' :: rest.data) := by
    simp [String.data_append]
  unfold S3v4.hostInfo
  rw [e, splitChars_append _ _ _ hs, splitChars_append _ _ _ hr]
  simp

/-- Claim C21: for every host `service.region.rest`, every credential pair and every header
map whose `x-amz-date` is a valid timestamp (the time library then gives its first eight
characters as the date), `aws/s3v4` `sign` returns
`"AWS4-HMAC-SHA256 Credential=" + accessKeyID + "/" + scope + ", SignedHeaders=" + signedHeaders
+ ", Signature=" + hex(HMAC-SHA256(k4, sts))` with `scope = date/region/service/aws4_request`,
`sts = "AWS4-HMAC-SHA256\n" + x-amz-date + "\n" + scope + "\n" + hex(SHA256(canonicalRequest))`
and `k4 = HMAC(HMAC(HMAC(HMAC("AWS4" + secret, date), region), service), "aws4_request")`. -/
theorem S3v4_sign_eq {Bytes : Type} (lib : V4Lib Bytes) (service region rest : String)
    (accessKeyID accessKeySecret method : String) (H : Options) (uri q : String)
    (hs : '.' ∉ service.data) (hr : '.' ∉ region.data)
    (hdate : lib.dateOf (opt H "x-amz-date") = firstEight (opt H "x-amz-date")) :
    S3v4.sign lib (service ++ "." ++ region ++ "." ++ rest) accessKeyID accessKeySecret
        method H uri q =
      some ("AWS4-HMAC-SHA256 Credential=" ++ accessKeyID ++ "/" ++
        (firstEight (opt H "x-amz-date") ++ "/" ++ region ++ "/" ++ service ++ "/aws4_request") ++
        ", SignedHeaders=" ++ S3v4.canonicalSignHeaders H ++ ", Signature=" ++
        lib.hex (lib.hmacSHA256
          (lib.hmacSHA256
            (lib.hmacSHA256
              (lib.hmacSHA256
                (lib.hmacSHA256 (lib.bytes ("AWS4" ++ accessKeySecret))
                  (lib.bytes (firstEight (opt H "x-amz-date"))))
                (lib.bytes region))
              (lib.bytes service))
            (lib.bytes "aws4_request"))
          (lib.bytes ("AWS4-HMAC-SHA256" ++ "\n" ++ opt H "x-amz-date" ++ "\n" ++
            (firstEight (opt H "x-amz-date") ++ "/" ++ region ++ "/" ++ service ++
              "/aws4_request") ++ "\n" ++
            lib.hex (lib.hashSHA256
              (lib.bytes (S3v4.canonicalRequest lib.toLower method H uri q))))))) := by
  obtain ⟨h0, h1⟩ := hostInfo_of_form service region rest hs hr
  have hc : S3v4.buildCredentialString (service ++ "." ++ region ++ "." ++ rest)
      (firstEight (opt H "x-amz-date")) =
      some (firstEight (opt H "x-amz-date") ++ "/" ++ region ++ "/" ++ service ++
        "/aws4_request") := by
    simp only [S3v4.buildCredentialString, h0, h1, S3v4.awsV4Request]
    congr 1
    apply String.ext
    simp
  simp only [S3v4.sign, S3v4.buildSignature, S3v4.deriveSigningKey, S3v4.stringToSign, hdate, hc,
    h0, h1, S3v4.authHeaderPrefix, S3v4.awsV4Request]
  rfl

set_option maxRecDepth 100000 in
theorem S3v4_sign_eq_witness :
    S3v4.sign plainV4Lib "s3.us-east-1.example.com" "AKID" "secret" "GET"
        [("host", "s3.us-east-1.example.com"), ("x-amz-date", "20240101T000000Z"),
         ("x-amz-content-sha256", "abc")] "/" "" =
      some ("AWS4-HMAC-SHA256 Credential=AKID/20240101/us-east-1/s3/aws4_request, " ++
        "SignedHeaders=host;x-amz-content-sha256;x-amz-date, Signature=" ++
        "hmac(hmac(hmac(hmac(hmac(AWS4secret,20240101),us-east-1),s3),aws4_request)," ++
        "AWS4-HMAC-SHA256\n20240101T000000Z\n20240101/us-east-1/s3/aws4_request\n" ++
        "sha256(GET\n/\n\nhost:s3.us-east-1.example.com\nx-amz-content-sha256:abc\n" ++
        "x-amz-date:20240101T000000Z\n\nhost;x-amz-content-sha256;x-amz-date\nabc))") :=
  (S3v4_sign_eq plainV4Lib "s3" "us-east-1" "example.com" "AKID" "secret" "GET"
    [("host", "s3.us-east-1.example.com"), ("x-amz-date", "20240101T000000Z"),
     ("x-amz-content-sha256", "abc")] "/" "" (by decide) (by decide) rfl).trans rfl

/-! ### Determinism of the signers -/

theorem lookup_of_mem (l : Options) (k v : String) (hn : (l.map Prod.fst).Nodup)
    (h : (k, v) ∈ l) : l.lookup k = some v := by
  induction l with
  | nil => simp at h
  | cons p rest ih =>
    obtain ⟨pk, pv⟩ := p
    simp only [List.map_cons, List.nodup_cons] at hn
    rcases List.mem_cons.mp h with h | h
    · cases h
      simp
    · have hne : ¬ k = pk := by
        intro e
        apply hn.1
        rw [← e]
        exact List.mem_map.mpr ⟨(k, v), h, rfl⟩
      have hb : (k == pk) = false := by simpa using hne
      simp only [List.lookup_cons, hb]
      exact ih hn.2 h

theorem mem_of_lookup (l : Options) (k v : String) (h : l.lookup k = some v) : (k, v) ∈ l := by
  induction l with
  | nil => simp at h
  | cons p rest ih =>
    obtain ⟨pk, pv⟩ := p
    simp only [List.lookup_cons] at h
    by_cases hk : (k == pk) = true
    · simp only [hk] at h
      have e : k = pk := by simpa using hk
      cases h
      simp [e]
    · have hb : (k == pk) = false := by simpa using hk
      simp only [hb] at h
      exact List.mem_cons_of_mem _ (ih h)

theorem opt_perm (H1 H2 : Options) (hp : H1.Perm H2) (hn : (H1.map Prod.fst).Nodup)
    (k : String) : opt H1 k = opt H2 k := by
  have hn2 : (H2.map Prod.fst).Nodup := (hp.map Prod.fst).nodup_iff.mp hn
  unfold opt
  cases h1 : H1.lookup k with
  | some v =>
    rw [lookup_of_mem H2 k v hn2 (hp.mem_iff.mp (mem_of_lookup H1 k v h1))]
  | none =>
    cases h2 : H2.lookup k with
    | none => rfl
    | some v =>
      have := lookup_of_mem H1 k v hn (hp.mem_iff.mpr (mem_of_lookup H2 k v h2))
      rw [h1] at this
      cases this

theorem sortStrings_headerKeys_perm (H1 H2 : Options) (hp : H1.Perm H2) :
    sortStrings (headerKeys H1) = sortStrings (headerKeys H2) := by
  have hk : (headerKeys H1).Perm (headerKeys H2) := hp.map Prod.fst
  exact @List.eq_of_perm_of_sorted String (fun a b => strLe a b = true)
    ⟨fun a b h1 h2 => String.ext (charsLe_antisymm a.data b.data h1 h2)⟩ _ _
    (((sortStrings_perm _).trans hk).trans (sortStrings_perm _).symm)
    (sortStrings_sorted _) (sortStrings_sorted _)

theorem canonicalHeaders_perm (toLower : String → String) (H1 H2 : Options)
    (hp : H1.Perm H2) (hn : (H1.map Prod.fst).Nodup) :
    S3v4.canonicalHeaders toLower H1 = S3v4.canonicalHeaders toLower H2 := by
  unfold S3v4.canonicalHeaders
  simp only [canonLines_eq, sortStrings_headerKeys_perm H1 H2 hp, opt_perm H1 H2 hp hn]

theorem canonicalRequest_perm (toLower : String → String) (method : String) (H1 H2 : Options)
    (uri q : String) (hp : H1.Perm H2) (hn : (H1.map Prod.fst).Nodup) :
    S3v4.canonicalRequest toLower method H1 uri q = S3v4.canonicalRequest toLower method H2 uri q := by
  unfold S3v4.canonicalRequest S3v4.canonicalSignHeaders
  simp only [canonicalHeaders_perm toLower H1 H2 hp hn, sortStrings_headerKeys_perm H1 H2 hp,
    opt_perm H1 H2 hp hn]

/-- Claim C22: both signers are functions of the method, the set of header name/value pairs,
the resource or uri, the query, the credentials and the host, and of nothing else (they take
no clock): two enumerations `H1`, `H2` of the same header map give the same Authorization
value, for the legacy signer and for the canonical-request signer. -/
theorem sign_enumeration_independent {Mac Bytes : Type} (cr : LegacyCrypto Mac)
    (lib : V4Lib Bytes) (host accessKeyID accessKeySecret method : String) (H1 H2 : Options)
    (bucket object uri q : String)
    (hp : H1.Perm H2) (hn : (H1.map Prod.fst).Nodup) :
    S3v2.sign cr accessKeyID accessKeySecret method H1 bucket object =
      S3v2.sign cr accessKeyID accessKeySecret method H2 bucket object ∧
    S3v4.sign lib host accessKeyID accessKeySecret method H1 uri q =
      S3v4.sign lib host accessKeyID accessKeySecret method H2 uri q := by
  constructor
  · unfold S3v2.sign
    simp only [signLines_eq, sortStrings_headerKeys_perm H1 H2 hp, opt_perm H1 H2 hp hn]
  · unfold S3v4.sign S3v4.buildSignature S3v4.stringToSign S3v4.canonicalSignHeaders
    simp only [canonicalRequest_perm lib.toLower method H1 H2 uri q hp hn,
      sortStrings_headerKeys_perm H1 H2 hp, opt_perm H1 H2 hp hn]

theorem sign_enumeration_independent_witness :
    S3v2.sign plainLegacyCrypto "AKID" "secret" "GET"
        [("x-amz-date", "20240101T000000Z"), ("host", "h")] "b" "o" =
      S3v2.sign plainLegacyCrypto "AKID" "secret" "GET"
        [("host", "h"), ("x-amz-date", "20240101T000000Z")] "b" "o" ∧
    S3v4.sign plainV4Lib "s3.r.example.com" "AKID" "secret" "GET"
        [("x-amz-date", "20240101T000000Z"), ("host", "h")] "/" "" =
      S3v4.sign plainV4Lib "s3.r.example.com" "AKID" "secret" "GET"
        [("host", "h"), ("x-amz-date", "20240101T000000Z")] "/" "" :=
  sign_enumeration_independent plainLegacyCrypto plainV4Lib "s3.r.example.com" "AKID" "secret"
    "GET" [("x-amz-date", "20240101T000000Z"), ("host", "h")]
    [("host", "h"), ("x-amz-date", "20240101T000000Z")] "b" "o" "/" ""
    (List.Perm.swap _ _ []) (by simp)

/-! ### Status codes of the object operations -/

theorem strContains_mid (a s b : String) : strContains (a ++ s ++ b) s = true := by
  unfold strContains
  rw [containsChars_iff]
  exact ⟨a.data, b.data, by simp [String.data_append]⟩

theorem statusError_mentions (pre object : String) (status : Int) (reqID : String) :
    strContains (pre ++ object ++ " StatusCode: " ++ toString status ++
        " X-Amz-Request-Id: " ++ reqID) (toString status) = true ∧
    strContains (pre ++ object ++ " StatusCode: " ++ toString status ++
        " X-Amz-Request-Id: " ++ reqID) reqID = true := by
  constructor
  · have h := strContains_mid (pre ++ object ++ " StatusCode: ") (toString status)
      (" X-Amz-Request-Id: " ++ reqID)
    rw [← String.append_assoc] at h
    exact h
  · have h := strContains_mid (pre ++ object ++ " StatusCode: " ++ toString status ++
      " X-Amz-Request-Id: ") reqID ""
    rw [String.append_empty] at h
    exact h

/-- Claim C23: for every transport response that carries an `X-Amz-Request-Id` header, with
any integer status code, `Delete` succeeds iff the status is 200 or 204, `Cat` iff it is 200
or 206, `CancelPart` iff it is 204, `Head` and `UploadPart` iff it is 200; for every other
status the call returns an error whose message contains the status code and the request
id. -/
theorem status_success_codes (object uploadID : String) (partNumber : Nat) (resp : Response)
    (reqID : String) (hid : resp.requestId = some reqID) :
    ((S3v2.Delete object (.ok resp) = .ok resp ↔ resp.statusCode = 200 ∨ resp.statusCode = 204) ∧
     (S3v2.Cat object (.ok resp) = .ok resp ↔ resp.statusCode = 200 ∨ resp.statusCode = 206) ∧
     (S3v2.CancelPart object uploadID (.ok resp) = .ok resp ↔ resp.statusCode = 204) ∧
     (S3v2.Head object (.ok resp) = .ok resp ↔ resp.statusCode = 200) ∧
     (S3v2.UploadPart object partNumber uploadID (.ok resp) = .ok resp ↔
        resp.statusCode = 200)) ∧
    (∀ r, r = S3v2.Delete object (.ok resp) ∨ r = S3v2.Cat object (.ok resp) ∨
        r = S3v2.CancelPart object uploadID (.ok resp) ∨ r = S3v2.Head object (.ok resp) ∨
        r = S3v2.UploadPart object partNumber uploadID (.ok resp) →
      r = .ok resp ∨
      ∃ msg, r = .error msg ∧ strContains msg (toString resp.statusCode) = true ∧
        strContains msg reqID = true) := by
  refine ⟨⟨?_, ?_, ?_, ?_, ?_⟩, ?_⟩
  · by_cases h1 : resp.statusCode = 200 <;> by_cases h2 : resp.statusCode = 204 <;>
      simp [S3v2.Delete, hid, h1, h2]
  · by_cases h1 : resp.statusCode = 200 <;> by_cases h2 : resp.statusCode = 206 <;>
      simp [S3v2.Cat, hid, h1, h2]
  · by_cases h1 : resp.statusCode = 204 <;> simp [S3v2.CancelPart, hid, h1]
  · by_cases h1 : resp.statusCode = 200 <;> simp [S3v2.Head, hid, h1]
  · by_cases h1 : resp.statusCode = 200 <;> simp [S3v2.UploadPart, hid, h1]
  · intro r hr
    rcases hr with hr | hr | hr | hr | hr
    · subst hr
      simp only [S3v2.Delete, hid]
      split
      · exact Or.inr ⟨_, rfl, statusError_mentions " Delete Object: " object _ reqID⟩
      · exact Or.inl rfl
    · subst hr
      simp only [S3v2.Cat, hid]
      split
      · exact Or.inr ⟨_, rfl, statusError_mentions " Cat Object: " object _ reqID⟩
      · exact Or.inl rfl
    · subst hr
      simp only [S3v2.CancelPart, hid]
      split
      · exact Or.inr ⟨_, rfl, statusError_mentions " CancelPart Object: " _ _ reqID⟩
      · exact Or.inl rfl
    · subst hr
      simp only [S3v2.Head, hid]
      split
      · exact Or.inr ⟨_, rfl, statusError_mentions " Head Object: " object _ reqID⟩
      · exact Or.inl rfl
    · subst hr
      simp only [S3v2.UploadPart, hid]
      split
      · exact Or.inr ⟨_, rfl, statusError_mentions " UploadPart Object: " _ _ reqID⟩
      · exact Or.inl rfl

theorem status_success_codes_witness :
    S3v2.Delete "k" (.ok ⟨404, some "REQ1", none⟩) =
      .error " Delete Object: k StatusCode: 404 X-Amz-Request-Id: REQ1" ∧
    (S3v2.Cat "k" (.ok ⟨206, some "REQ1", none⟩) = .ok ⟨206, some "REQ1", none⟩ ↔
      (206 : Int) = 200 ∨ (206 : Int) = 206) :=
  ⟨by decide,
   (status_success_codes "k" "u" 1 ⟨206, some "REQ1", none⟩ "REQ1" rfl).1.2.1⟩

/-- Claim C29 at failing inputs: on a response without the header `X-Amz-Request-Id` the
operations `Head`, `Delete`, `Cat`, `UploadPart` and `Put` end in the panic of the type
assertion `resp["X-Amz-Request-Id"].(string)`; on a status-200 response without the header
`Etag`, `Put` ends in the panic of `resp["Etag"].(string)` and the part loop of
`UploadLargeFile` in that of `uploadPart["Etag"].(string)`. -/
theorem operations_abort_on_missing_header :
    S3v2.Head "k" (.ok ⟨502, none, none⟩) = .aborted ∧
    S3v2.Delete "k" (.ok ⟨204, none, none⟩) = .aborted ∧
    S3v2.Cat "k" (.ok ⟨200, none, none⟩) = .aborted ∧
    S3v2.UploadPart "k" 1 "u" (.ok ⟨200, none, some "etag"⟩) = .aborted ∧
    S3v2.Put "host" "b" "k" 3 (.ok ⟨200, none, some "etag"⟩) = .aborted ∧
    S3v2.Put "host" "b" "k" 3 (.ok ⟨200, some "REQ1", none⟩) = .aborted ∧
    uploadWorker (fun _ _ => .ok none) 0 (initJob 1).vars = none := by
  decide

/-! ### The sweep of `DeleteAllPart` -/

theorem sweepPage_eq (age : String → Option Int) (options : Options)
    (uploads : List UploadEntry) (tmpSkip : Nat) (bodyList : List UploadEntry) :
    sweepPage age options uploads (tmpSkip, bodyList) =
      (tmpSkip + uploads.countP (isYoung age (atoiValue (opt options "expired"))),
       bodyList ++ uploads.filter
         (fun v => !isYoung age (atoiValue (opt options "expired")) v)) := by
  induction uploads generalizing tmpSkip bodyList with
  | nil => simp [sweepPage]
  | cons v rest ih =>
    simp only [sweepPage]
    by_cases hy : isYoung age (atoiValue (opt options "expired")) v = true
    · simp only [hy, if_true]
      rw [ih]
      simp [hy, List.countP_cons]
      omega
    · have hf : isYoung age (atoiValue (opt options "expired")) v = false := by simpa using hy
      simp only [hf, Bool.false_eq_true, if_false]
      rw [ih]
      simp [hf, List.countP_cons]

/-- Claim C24 fails as stated: with `expired = 3600`, an upload whose `Initiated` text is
empty, which `time.Parse` rejects, is put on the list of the uploads to cancel and is not
counted in `Skip`, whatever its age. -/
theorem sweepPage_unparsed_is_cancelled :
    sweepPage (fun s => if s = "" then none else some 0) [("expired", "3600")]
        [⟨"k", "id", ""⟩] (0, []) = (0, [⟨"k", "id", ""⟩]) := by
  decide

/-- Claim C24 as amended: for every listed multipart upload whose `Initiated` text parses, and
every `expired` option value `E` (seconds), the upload is put on the list of the uploads to
cancel only if its initiation lies at least `E` seconds in the past, and every such upload
younger than `E` is counted in `Skip` and is not put on the list; an upload whose `Initiated`
text does not parse is put on the list. -/
theorem sweepPage_expired_only (age : String → Option Int) (options : Options)
    (uploads : List UploadEntry) (v : UploadEntry) (hv : v ∈ uploads) :
    sweepPage age options uploads (0, []) =
      (uploads.countP (isYoung age (atoiValue (opt options "expired"))),
       uploads.filter (fun v => !isYoung age (atoiValue (opt options "expired")) v)) ∧
    (∀ d, age v.initiated = some d →
      (v ∈ (sweepPage age options uploads (0, [])).2 →
        atoiValue (opt options "expired") * 1000000000 ≤ d) ∧
      (d < atoiValue (opt options "expired") * 1000000000 →
        v ∉ (sweepPage age options uploads (0, [])).2 ∧
        isYoung age (atoiValue (opt options "expired")) v = true)) ∧
    (age v.initiated = none → v ∈ (sweepPage age options uploads (0, [])).2) := by
  have he := sweepPage_eq age options uploads 0 []
  simp only [Nat.zero_add, List.nil_append] at he
  refine ⟨he, ?_, ?_⟩
  · intro d hd
    rw [he]
    simp only [List.mem_filter, isYoung, hd, Bool.not_eq_true', decide_eq_false_iff_not,
      decide_eq_true_eq]
    constructor
    · intro h; omega
    · intro h
      exact ⟨fun hc => hc.2 h, h⟩
  · intro hn
    rw [he]
    simp [List.mem_filter, isYoung, hn, hv]

theorem sweepPage_expired_only_witness :
    sweepPage (fun s => if s = "old" then some 7200000000000 else if s = "new" then some 5000000000
        else none) [("expired", "3600")]
      [⟨"a", "1", "old"⟩, ⟨"b", "2", "new"⟩] (0, []) = (1, [⟨"a", "1", "old"⟩]) ∧
    (⟨"b", "2", "new"⟩ : UploadEntry) ∈ [(⟨"a", "1", "old"⟩ : UploadEntry), ⟨"b", "2", "new"⟩] :=
  ⟨((sweepPage_expired_only (fun s => if s = "old" then some 7200000000000
        else if s = "new" then some 5000000000 else none) [("expired", "3600")]
      [⟨"a", "1", "old"⟩, ⟨"b", "2", "new"⟩] ⟨"b", "2", "new"⟩ (by decide)).1).trans (by decide),
   by decide⟩

/-! ### Pool slots of the admission loops -/

theorem loopBlocked_no_step {σ : Type} (ops : PoolOps σ) (total cap : Nat) (s : LoopState σ)
    (h : loopBlocked cap s = true) (e : LoopEvent) : loopStep ops total cap s e = none := by
  simp only [loopBlocked, Bool.and_eq_true, decide_eq_true_eq, List.isEmpty_iff] at h
  obtain ⟨⟨h1, h2⟩, h3⟩ := h
  cases e with
  | check => simp [loopStep, h1]
  | push =>
    have : ¬ s.pool.held < cap := by omega
    simp [loopStep, this]
  | run p => simp [loopStep, h3]

theorem poolStep_held_eq {σ : Type} (ops : PoolOps σ)
    (hrel : ∀ p v v' r, ops.worker p v = some (v', r) → r = true)
    (total cap : Nat) (s s' : PoolState σ) (e : Event)
    (hI : s.held = s.running.length) (h : poolStep ops total cap s e = some s') :
    s'.held = s'.running.length := by
  cases e with
  | dispatch =>
    simp only [poolStep] at h
    split at h
    · exact absurd h (by simp)
    · split at h
      · cases h; exact hI
      · split at h
        · cases h
          simp only [List.length_append, List.length_singleton]
          omega
        · exact absurd h (by simp)
  | run p =>
    simp only [poolStep] at h
    split at h
    · next hmem =>
      have hp : p ∈ s.running := by simpa using hmem
      split at h
      · exact absurd h (by simp)
      · next v r hwk =>
        have hr := hrel p s.vars v r hwk
        subst hr
        cases h
        simp only [List.length_erase_of_mem hp, if_true]
        omega
    · exact absurd h (by simp)

/-- Where the claim on the pool slots holds: in an admission loop whose worker always takes
its value back out of the pool (`UploadLargeFile`, `SyncLargeFile`, `Get`), the number of
held slots equals the number of workers still running, in every state reached. -/
theorem poolRun_held_eq {σ : Type} (ops : PoolOps σ)
    (hrel : ∀ p v v' r, ops.worker p v = some (v', r) → r = true)
    (total cap : Nat) (events : List Event) (s s' : PoolState σ)
    (hI : s.held = s.running.length) (h : poolRun ops total cap events s = some s') :
    s'.held = s'.running.length := by
  induction events generalizing s with
  | nil => simp only [poolRun] at h; cases h; exact hI
  | cons e es ih =>
    simp only [poolRun] at h
    split at h
    · exact absurd h (by simp)
    · next s1 hs1 => exact ih s1 (poolStep_held_eq ops hrel total cap s s1 e hI hs1) h

/-- Claim C25 at a failing input: `CopyLargeFile` with `N = 2` parts and a pool of `K = 1`
slot, every `CopyPart` of part 1 failing.  The main goroutine starts the worker of part 1,
passes the exit check of the second iteration and waits at `queueMaxSize <- true`; the worker
of part 1 exhausts its attempts and returns without `<-queueMaxSize`.  One slot is then held
and no worker is running, and no event can happen any more: the admission loop stays blocked
on the full pool.  With the worker of `UploadLargeFile` the slot is given back. -/
theorem copyLargeFile_slot_not_released :
    (∃ s, loopRun (copyOps (fun _ _ => .error "StatusCode: 500") (fun _ _ => false)) 2 1
        [.check, .push, .check, .run 0] ⟨poolInit (initJob 2).vars, false⟩ = some s ∧
      s.pool.held = 1 ∧ s.pool.running = [] ∧ s.atPush = true ∧ s.pool.loopBroken = false ∧
      ∀ e, loopStep (copyOps (fun _ _ => .error "StatusCode: 500") (fun _ _ => false)) 2 1 s e
        = none) ∧
    (∃ s, loopRun (uploadOps (fun _ _ => .err "StatusCode: 500")) 2 1
        [.check, .push, .check, .run 0] ⟨poolInit (initJob 2).vars, false⟩ = some s ∧
      s.pool.held = 0 ∧ s.pool.running = []) := by
  refine ⟨⟨_, rfl, rfl, rfl, rfl, rfl, ?_⟩, ⟨_, rfl, rfl, rfl⟩⟩
  intro e
  exact loopBlocked_no_step _ 2 1 _ (by rfl) e

/-! ### Letter case of header names in the signers -/

/-- Claim C26 at failing inputs: for the header map `{"Host": "h", "x-amz-date": "d"}`
`canonicalHeaders` writes the line `host:h` and `canonicalSignHeaders` names the header
`Host`, not `host`; for `{"b": "1", "C": "2"}` the lines of `canonicalHeaders` are `c:2`, `b:1`,
in the order of the names as given and not of the lower-cased names. -/
theorem canonicalSignHeaders_not_lowered :
    S3v4.canonicalHeaders asciiToLower [("Host", "h"), ("x-amz-date", "d")]
      = "host:h\nx-amz-date:d\n" ∧
    S3v4.canonicalSignHeaders [("Host", "h"), ("x-amz-date", "d")] = "Host;x-amz-date" ∧
    S3v4.canonicalHeaders asciiToLower [("b", "1"), ("C", "2")] = "c:2\nb:1\n" ∧
    S3v4.canonicalSignHeaders [("b", "1"), ("C", "2")] = "C;b" := by
  decide

/-- Claim C27 fails as stated: the strings the legacy signer signs for `{"X-Amz-Acl": v}` and
for `{"x-amz-acl": v}` differ (shown with HMAC and base64 replaced by the identity): the first
header contributes the line `private`, the second the line `x-amz-acl:private`. -/
theorem legacy_sign_case_sensitive :
    S3v2.sign plainLegacyCrypto "AKID" "secret" "PUT" [("X-Amz-Acl", "private")] "b" "o"
      = "AWS AKID:PUT\nprivate\n/b/o" ∧
    S3v2.sign plainLegacyCrypto "AKID" "secret" "PUT"
        (lowerNames asciiToLower [("X-Amz-Acl", "private")]) "b" "o"
      = "AWS AKID:PUT\nx-amz-acl:private\n/b/o" := by
  decide

theorem lowerNames_of_lower (toLower : String → String) (H : Options)
    (h : ∀ kv, kv ∈ H → toLower kv.1 = kv.1) : lowerNames toLower H = H := by
  induction H with
  | nil => rfl
  | cons p rest ih =>
    have hp := h p (by simp)
    have hr := ih (fun kv hkv => h kv (by simp [hkv]))
    unfold lowerNames at hr ⊢
    simp only [List.map_cons, hr, hp]

theorem orderedInsert_map_strLe (f : String → String) (a : String) (l : List String)
    (h : ∀ x, x ∈ a :: l → ∀ y, y ∈ a :: l → strLe (f x) (f y) = strLe x y) :
    List.orderedInsert (fun x y => strLe x y = true) (f a) (l.map f)
      = (List.orderedInsert (fun x y => strLe x y = true) a l).map f := by
  induction l with
  | nil => simp
  | cons b rest ih =>
    have hab := h a (by simp) b (by simp)
    have ih2 := ih (fun x hx y hy =>
      h x (by rcases List.mem_cons.mp hx with e | e <;> simp [e])
        y (by rcases List.mem_cons.mp hy with e | e <;> simp [e]))
    simp only [List.map_cons, List.orderedInsert, hab]
    split
    · simp
    · simp only [List.map_cons]
      rw [ih2]

theorem sortStrings_map (f : String → String) (l : List String)
    (h : ∀ x, x ∈ l → ∀ y, y ∈ l → strLe (f x) (f y) = strLe x y) :
    sortStrings (l.map f) = (sortStrings l).map f := by
  induction l with
  | nil => rfl
  | cons a rest ih =>
    have ih2 := ih (fun x hx y hy =>
      h x (List.mem_cons_of_mem _ hx) y (List.mem_cons_of_mem _ hy))
    unfold sortStrings at ih2 ⊢
    simp only [List.map_cons, List.insertionSort, ih2]
    apply orderedInsert_map_strLe
    intro x hx y hy
    have hmem : ∀ z, z ∈ a :: List.insertionSort (fun x y => strLe x y = true) rest →
        z ∈ a :: rest := by
      intro z hz
      rcases List.mem_cons.mp hz with e | e
      · simp [e]
      · exact List.mem_cons_of_mem _ ((List.perm_insertionSort _ rest).mem_iff.mp e)
    exact h x (hmem x hx) y (hmem y hy)

theorem strLe_refl (a : String) : strLe a a = true := by
  rcases charsLe_total a.data a.data with h | h <;> exact h

theorem lower_injective_of_order (f : String → String) (l : List String)
    (h : ∀ x, x ∈ l → ∀ y, y ∈ l → strLe (f x) (f y) = strLe x y)
    (x y : String) (hx : x ∈ l) (hy : y ∈ l) (e : f x = f y) : x = y := by
  have h1 : strLe x y = true := by rw [← h x hx y hy, e]; exact strLe_refl _
  have h2 : strLe y x = true := by rw [← h y hy x hx, e]; exact strLe_refl _
  exact String.ext (charsLe_antisymm x.data y.data h1 h2)

theorem opt_lowerNames (f : String → String) (H : Options) (k : String)
    (hinj : ∀ k', k' ∈ headerKeys H → f k' = f k → k' = k) :
    opt (lowerNames f H) (f k) = opt H k := by
  unfold opt
  congr 1
  induction H with
  | nil => rfl
  | cons p rest ih =>
    obtain ⟨pk, pv⟩ := p
    have ih2 := ih (fun k' hk' e => hinj k' (by simp [headerKeys] at hk' ⊢; tauto) e)
    unfold lowerNames at ih2 ⊢
    simp only [List.map_cons, List.lookup_cons]
    by_cases hk : k = pk
    · subst hk
      simp
    · have h1 : (k == pk) = false := by simpa using hk
      have h2 : (f k == f pk) = false := by
        have : ¬ f k = f pk := fun e => hk (hinj pk (by simp [headerKeys]) e.symm).symm
        simpa using this
      simp only [h1, h2]
      exact ih2

/-- Claim C27 as amended: the legacy signer takes the header names as given; it sorts them and
tests them for `"x-amz-"` as written.  For every method, bucket, object and header map, `sign`
returns the same Authorization value for the map and for the map obtained by lower-casing
every header name, provided that lower-casing does not change the order of the names, does
not change which names contain `"x-amz-"`, and leaves the names that contain `"x-amz-"`
unchanged. -/
theorem legacy_sign_case_invariance {Mac : Type} (cr : LegacyCrypto Mac)
    (toLower : String → String) (accessKeyID accessKeySecret method : String) (H : Options)
    (bucket object : String)
    (hord : ∀ x, x ∈ headerKeys H → ∀ y, y ∈ headerKeys H →
      strLe (toLower x) (toLower y) = strLe x y)
    (hamz : ∀ x, x ∈ headerKeys H →
      strContains (toLower x) "x-amz-" = strContains x "x-amz-")
    (hfix : ∀ x, x ∈ headerKeys H → strContains x "x-amz-" = true → toLower x = x) :
    S3v2.sign cr accessKeyID accessKeySecret method (lowerNames toLower H) bucket object =
      S3v2.sign cr accessKeyID accessKeySecret method H bucket object := by
  have hkeys : headerKeys (lowerNames toLower H) = (headerKeys H).map toLower := by
    simp [headerKeys, lowerNames, List.map_map, Function.comp_def]
  have hsort : sortStrings (headerKeys (lowerNames toLower H))
      = (sortStrings (headerKeys H)).map toLower := by
    rw [hkeys]
    exact sortStrings_map toLower _ hord
  have hline : ∀ k, k ∈ sortStrings (headerKeys H) →
      (if strContains (toLower k) "x-amz-" = true then
          toLower k ++ ":" ++ opt (lowerNames toLower H) (toLower k) ++ "\n"
        else opt (lowerNames toLower H) (toLower k) ++ "\n")
      = (if strContains k "x-amz-" = true then k ++ ":" ++ opt H k ++ "\n"
        else opt H k ++ "\n") := by
    intro k hk
    have hkm : k ∈ headerKeys H := (sortStrings_perm _).mem_iff.mp hk
    have hopt : opt (lowerNames toLower H) (toLower k) = opt H k :=
      opt_lowerNames toLower H k
        (fun k' hk' e => lower_injective_of_order toLower _ hord k' k hk' hkm e)
    rw [hamz k hkm, hopt]
    by_cases hc : strContains k "x-amz-" = true
    · rw [hfix k hkm hc]
    · simp only [hc, Bool.false_eq_true, if_false]
  unfold S3v2.sign
  simp only [signLines_eq, hsort, List.map_map]
  have hmap : List.map ((fun name =>
        if strContains name "x-amz-" = true then
          name ++ ":" ++ opt (lowerNames toLower H) name ++ "\n"
        else opt (lowerNames toLower H) name ++ "\n") ∘ toLower) (sortStrings (headerKeys H))
      = List.map (fun name =>
        if strContains name "x-amz-" = true then name ++ ":" ++ opt H name ++ "\n"
        else opt H name ++ "\n") (sortStrings (headerKeys H)) :=
    List.map_congr_left (fun k hk => hline k hk)
  rw [hmap]

theorem legacy_sign_case_invariance_witness :
    lowerNames asciiToLower [("Date", "d"), ("x-amz-acl", "private"), ("Content-Type", "t")]
      = [("date", "d"), ("x-amz-acl", "private"), ("content-type", "t")] ∧
    S3v2.sign plainLegacyCrypto "AKID" "secret" "PUT"
        [("Date", "d"), ("x-amz-acl", "private"), ("Content-Type", "t")] "b" "o"
      = "AWS AKID:PUT\nt\nd\nx-amz-acl:private\n/b/o" ∧
    S3v2.sign plainLegacyCrypto "AKID" "secret" "PUT"
        (lowerNames asciiToLower
          [("Date", "d"), ("x-amz-acl", "private"), ("Content-Type", "t")]) "b" "o" =
      S3v2.sign plainLegacyCrypto "AKID" "secret" "PUT"
        [("Date", "d"), ("x-amz-acl", "private"), ("Content-Type", "t")] "b" "o" :=
  ⟨by decide, by decide,
   legacy_sign_case_invariance plainLegacyCrypto asciiToLower "AKID" "secret" "PUT"
     [("Date", "d"), ("x-amz-acl", "private"), ("Content-Type", "t")] "b" "o"
     (by decide) (by decide) (by decide)⟩

/-! ### ETags of `SyncLargeFile` -/

/-- Claim C28 at failing inputs: one part whose ranged fetch succeeds and whose five
`UploadPart` responses all lack the entry `Etag`; and one part whose ranged fetch gives a
response without the entry `Body`.  In both runs `partErr` is nil after the join and
`SyncLargeFile` posts a manifest with an empty ETag for part 1. -/
theorem syncLargeFile_empty_etag :
    (syncWorker (fun _ _ => .ok (some "bytes")) (fun _ _ => .ok none) 0 (initJob 1).vars).requests
      = [(1, 0), (1, 1), (1, 2), (1, 3), (1, 4)] ∧
    runSyncLargeFile (fun _ _ => .ok (some "bytes")) (fun _ _ => .ok none) 1 1
        [.dispatch, .run 0] =
      some (.completed ("<CompleteMultipartUpload>" ++
        "<Part><PartNumber>1</PartNumber><ETag></ETag></Part>" ++
        "</CompleteMultipartUpload>")) ∧
    runSyncLargeFile (fun _ _ => .ok none) (fun _ _ => .ok (some "etag1")) 1 1
        [.dispatch, .run 0] =
      some (.completed ("<CompleteMultipartUpload>" ++
        "<Part><PartNumber>1</PartNumber><ETag></ETag></Part>" ++
        "</CompleteMultipartUpload>")) := by
  decide

/-! ### The suffix option -/

theorem allowedLoop_false (lowerName : String) (l : List String) :
    allowedLoop lowerName l false = suffixLoop lowerName l := by
  induction l with
  | nil => rfl
  | cons s rest ih =>
    simp only [allowedLoop, suffixLoop, ih]

theorem allowedLoop_true (lowerName : String) (l : List String)
    (h : ∃ s, s ∈ l ∧ s ≠ "") :
    allowedLoop lowerName l true = suffixLoop lowerName l := by
  induction l with
  | nil => obtain ⟨s, hs, _⟩ := h; simp at hs
  | cons s rest ih =>
    simp only [allowedLoop, suffixLoop]
    by_cases hs : s = ""
    · have hb : (s != "") = false := by simp [hs]
      simp only [hb, Bool.false_eq_true, if_false]
      apply ih
      obtain ⟨t, ht, hne⟩ := h
      rcases List.mem_cons.mp ht with e | e
      · exact absurd (e ▸ hs) hne
      · exact ⟨t, e, hne⟩
    · have hb : (s != "") = true := by simp [hs]
      simp only [hb, if_true, allowedLoop_false]

/-- The two readings of the suffix option: for a suffix list with a non-empty entry, the files
`WalkDir` selects are those whose key `CopyAllObject` and `MoveAllObject` mark as skipped. -/
theorem walkDirAllowed_eq_suffixFilter (toLower : String → String) (suffix name : String)
    (h : ∃ s, s ∈ splitComma suffix ∧ s ≠ "") :
    walkDirAllowed toLower suffix name = suffixFilter toLower [("suffix", suffix)] name := by
  have ho : opt [("suffix", suffix)] "suffix" = suffix := by simp [opt, List.lookup]
  have hne : suffix ≠ "" := by
    intro e
    subst e
    obtain ⟨s, hs, hn⟩ := h
    have : splitComma "" = [""] := by decide
    rw [this] at hs
    simp at hs
    exact hn hs
  have hb : (suffix != "") = true := by simp [hne]
  simp only [walkDirAllowed, suffixFilter, ho, hb, if_true]
  exact allowedLoop_true _ _ h

/-- Claim C30 at failing inputs: with the suffix option `".jpg"`, `UploadFromDir` (through
`WalkDir`) selects `a.jpg` and leaves out `b.txt`, while `CopyAllObject` and `MoveAllObject`
(here with `replace = "true"`, so that nothing else skips) skip `a.jpg` and transfer
`b.txt`. -/
theorem suffix_option_two_meanings :
    walkDirList asciiToLower ".jpg" ["a.jpg", "b.txt"] = ["a.jpg"] ∧
    copyIsSkipped asciiToLower [("suffix", ".jpg"), ("replace", "true")] "a.jpg"
      ⟨some 10, some 100⟩ nilHead = true ∧
    copyIsSkipped asciiToLower [("suffix", ".jpg"), ("replace", "true")] "b.txt"
      ⟨some 10, some 100⟩ nilHead = false := by
  decide

end Storage
